import Mathlib

/-!
Verification of the block cache, inode layer and frame table of the
CS330 teaching-OS kernel (src/filesys/inode.c and src/vm/frame.c).

The C code is shallowly embedded: the single-threaded semantics of each
function is given as a Lean function on explicit state.  Locks are
no-ops in the single-threaded model and are therefore dropped.  Machine
integers: `disk_sector_t` (uint32) values are modelled as `Nat`; the
initialisation `bc->sector = -1` stores `0xFFFFFFFF`, modelled by the
constant `SENTINEL`.  Signed `off_t`/`int` quantities are modelled as
`Int`, with C's truncating division and remainder (`Int.tdiv`,
`Int.tmod`).  Byte buffers are modelled as functions `Nat → Nat`
(byte offset to byte value); the raw disk is `Nat → Nat → Nat`
(sector, byte offset).  The unbounded `while (true)` claim loops are
modelled with explicit fuel; fuel 65 is proved sufficient below, and
the fuel-exhausted branch of the wrappers is proved unreachable.
-/

/-- `DISK_SECTOR_SIZE` in the reference system. -/
def SECTOR_SIZE : Nat := 512

/-- The value stored by `bc->sector = -1` into the unsigned
`disk_sector_t` field: `(uint32_t)(-1) = 0xFFFFFFFF`. -/
def SENTINEL : Nat := 4294967295

/-- One cache slot: `struct BC` from inode.c (the per-slot lock is a
no-op in the single-threaded model and is omitted). -/
structure BC where
  buffer : Nat → Nat
  sector : Nat
  alloc : Bool
  access : Bool
  dirty : Bool

/-- The mutable state touched by the block cache: the 64-slot pool
`BClist`, the eviction cursor `next_BC_to_evict`, and the raw disk
contents (the external device that `disk_read`/`disk_write` act on). -/
structure CacheState where
  BClist : Fin 64 → BC
  next_BC_to_evict : Fin 64
  disk : Nat → Nat → Nat

/-- Raw device primitive `disk_write (d, sec, buf)`: replaces the
contents of sector `sec` with the 512 bytes of `buf`. -/
def rawDiskWrite (d : Nat → Nat → Nat) (sec : Nat) (buf : Nat → Nat) :
    Nat → Nat → Nat :=
  fun s j => if s = sec then buf j else d s j

/-- `inode_init`: every slot unallocated with sector `(disk_sector_t)-1`,
flags clear; cursor 0.  The slot buffers come from `malloc` and are
uninitialised, so their contents `bufs` are a parameter. -/
def inode_init (bufs : Fin 64 → Nat → Nat) (disk0 : Nat → Nat → Nat) :
    CacheState :=
  { BClist := fun i => ⟨bufs i, SENTINEL, false, false, false⟩
    next_BC_to_evict := ⟨0, by omega⟩
    disk := disk0 }

/-- The hit scan shared by `_disk_read` and `_disk_write`: walk the pool
in index order starting at `i` and return the first slot whose `sector`
field equals `sec_no`.  The `for (i = 0; i < 64; ++i)` loop is given
structurally recursive fuel (64 iterations from index 0). -/
def scanFrom (st : CacheState) (sec_no : Nat) : Nat → Nat → Option (Fin 64)
  | 0, _ => none
  | fuel + 1, i =>
    if h : i < 64 then
      if (st.BClist ⟨i, h⟩).sector = sec_no then some ⟨i, h⟩
      else scanFrom st sec_no fuel (i + 1)
    else none

/-- The hit scan of the C code: 64 iterations starting at slot 0. -/
def scanHit (st : CacheState) (sec_no : Nat) : Option (Fin 64) :=
  scanFrom st sec_no 64 0

/-- `memcpy (buffer, bc->buffer + start, end)`: the `end` bytes read out
of a slot buffer starting at offset `start`. -/
def memcpyOut (buf : Nat → Nat) (start len : Nat) : List Nat :=
  (List.range len).map fun j => buf (start + j)

/-- `memcpy (bc->buffer + start, buffer, end)`: overlay `len` bytes of
`src` onto `dst` starting at offset `start`. -/
def memcpyIn (dst : Nat → Nat) (start : Nat) (src : Nat → Nat) (len : Nat) :
    Nat → Nat :=
  fun j => if start ≤ j ∧ j < start + len then src (j - start) else dst j

/-- Advance the eviction cursor: `next_BC_to_evict = (next_BC_to_evict + 1) % 64`. -/
def bumpCursor (i : Fin 64) : Fin 64 :=
  ⟨(i.val + 1) % 64, by omega⟩

/-- The claim loop of `_disk_read` (`while (true) { ... }`), with fuel.
Each iteration takes the slot at the cursor and advances the cursor;
an unallocated slot is claimed (loaded from disk, marked allocated,
flags cleared); an allocated slot with `access` clear is the victim
(written back first when dirty, then loaded and reset); otherwise the
`access` flag is cleared and the loop continues.  Returns the state
just before the `read:` label together with the claimed slot index. -/
def readClaimLoop : Nat → CacheState → Nat → Option (CacheState × Fin 64)
  | 0, _, _ => none
  | fuel + 1, st, sec_no =>
    let i := st.next_BC_to_evict
    let bc := st.BClist i
    let st1 : CacheState := { st with next_BC_to_evict := bumpCursor i }
    if bc.alloc = false then
      some ({ st1 with
                BClist := Function.update st1.BClist i
                  ⟨st1.disk sec_no, sec_no, true, false, false⟩ }, i)
    else if bc.access = false then
      let d' := if bc.dirty then rawDiskWrite st1.disk bc.sector bc.buffer
                else st1.disk
      some ({ st1 with
                disk := d'
                BClist := Function.update st1.BClist i
                  ⟨d' sec_no, sec_no, true, false, false⟩ }, i)
    else
      readClaimLoop fuel
        { st1 with BClist := Function.update st1.BClist i { bc with access := false } }
        sec_no

/-- The claim loop of `_disk_write`, with fuel.  Identical scan to the
read loop, but the claimed slot only gets its buffer loaded and its
`dirty` flag set inside the loop; `sector`, `alloc` and `access` are
set afterwards at the `write:` label. -/
def writeClaimLoop : Nat → CacheState → Nat → Option (CacheState × Fin 64)
  | 0, _, _ => none
  | fuel + 1, st, sec_no =>
    let i := st.next_BC_to_evict
    let bc := st.BClist i
    let st1 : CacheState := { st with next_BC_to_evict := bumpCursor i }
    if bc.alloc = false then
      some ({ st1 with
                BClist := Function.update st1.BClist i
                  { bc with buffer := st1.disk sec_no, dirty := true } }, i)
    else if bc.access = false then
      let d' := if bc.dirty then rawDiskWrite st1.disk bc.sector bc.buffer
                else st1.disk
      some ({ st1 with
                disk := d'
                BClist := Function.update st1.BClist i
                  { bc with buffer := d' sec_no, dirty := true } }, i)
    else
      writeClaimLoop fuel
        { st1 with BClist := Function.update st1.BClist i { bc with access := false } }
        sec_no

/-- `_disk_read (d, sec_no, buffer, start, end)`: returns the `end`
bytes copied into the caller's buffer and the new cache state.  The
fuel-exhausted branch is unreachable (`readClaimLoop_total`). -/
def _disk_read (st : CacheState) (sec_no : Nat) (start len : Nat) :
    List Nat × CacheState :=
  match scanHit st sec_no with
  | some i =>
    let st' : CacheState :=
      { st with BClist := Function.update st.BClist i
                  { st.BClist i with access := true } }
    (memcpyOut ((st'.BClist i).buffer) start len, st')
  | none =>
    match readClaimLoop 65 st sec_no with
    | some (st', i) => (memcpyOut ((st'.BClist i).buffer) start len, st')
    | none => ([], st)

/-- `_disk_write (d, sec_no, buffer, start, end)`: on a hit the slot's
`dirty` flag is set and then the `write:` label copies the caller's
bytes in and sets `sector`, `alloc`, `access`; on a miss the claim
loop runs first.  The fuel-exhausted branch is unreachable
(`writeClaimLoop_total`). -/
def _disk_write (st : CacheState) (sec_no : Nat) (src : Nat → Nat)
    (start len : Nat) : CacheState :=
  match scanHit st sec_no with
  | some i =>
    let bc := st.BClist i
    { st with BClist :=
        (Function.update st.BClist i
          ⟨memcpyIn bc.buffer start src len, sec_no, true, true, true⟩) }
  | none =>
    match writeClaimLoop 65 st sec_no with
    | some (st', i) =>
      let bc := st'.BClist i
      { st' with BClist :=
          (Function.update st'.BClist i
            ⟨memcpyIn bc.buffer start src len, sec_no, true, true, bc.dirty⟩) }
    | none => st

example : (1 : Int).tdiv 2 = 0 := by decide
example : ((-1 : Int)).tdiv 2 = 0 := by decide
example : ((-1 : Int)).tmod 512 = -1 := by decide

/-! ### Branch behaviour of the claim loops -/

/-- Read loop, branch `!bc->alloc`: the unallocated slot at the cursor is
claimed immediately: loaded from disk, marked allocated, flags cleared. -/
theorem readClaimLoop_succ_unalloc (fuel : Nat) (st : CacheState) (sec_no : Nat)
    (h : (st.BClist st.next_BC_to_evict).alloc = false) :
    readClaimLoop (fuel + 1) st sec_no =
      some ({ st with
                next_BC_to_evict := bumpCursor st.next_BC_to_evict
                BClist := Function.update st.BClist st.next_BC_to_evict
                  ⟨st.disk sec_no, sec_no, true, false, false⟩ },
            st.next_BC_to_evict) := by
  simp [readClaimLoop, h]

/-- Read loop, branch `!bc->access` (victim): the slot's old contents are
written back to the raw device exactly when dirty, then the requested
sector is loaded and the slot's id and flags are reset. -/
theorem readClaimLoop_succ_victim (fuel : Nat) (st : CacheState) (sec_no : Nat)
    (h1 : (st.BClist st.next_BC_to_evict).alloc = true)
    (h2 : (st.BClist st.next_BC_to_evict).access = false) :
    readClaimLoop (fuel + 1) st sec_no =
      some ({ st with
                next_BC_to_evict := bumpCursor st.next_BC_to_evict
                disk := if (st.BClist st.next_BC_to_evict).dirty then
                          rawDiskWrite st.disk (st.BClist st.next_BC_to_evict).sector
                            (st.BClist st.next_BC_to_evict).buffer
                        else st.disk
                BClist := Function.update st.BClist st.next_BC_to_evict
                  ⟨(if (st.BClist st.next_BC_to_evict).dirty then
                      rawDiskWrite st.disk (st.BClist st.next_BC_to_evict).sector
                        (st.BClist st.next_BC_to_evict).buffer
                    else st.disk) sec_no, sec_no, true, false, false⟩ },
            st.next_BC_to_evict) := by
  simp [readClaimLoop, h1, h2]

/-- Read loop, skip branch (`access` set): the access flag is cleared,
the slot is not claimed this round, and the loop continues at the next
cursor position. -/
theorem readClaimLoop_succ_skip (fuel : Nat) (st : CacheState) (sec_no : Nat)
    (h1 : (st.BClist st.next_BC_to_evict).alloc = true)
    (h2 : (st.BClist st.next_BC_to_evict).access = true) :
    readClaimLoop (fuel + 1) st sec_no =
      readClaimLoop fuel
        { st with
            next_BC_to_evict := bumpCursor st.next_BC_to_evict
            BClist := Function.update st.BClist st.next_BC_to_evict
              { st.BClist st.next_BC_to_evict with access := false } }
        sec_no := by
  simp [readClaimLoop, h1, h2]

/-- Write loop, branch `!bc->alloc`: claimed immediately; inside the loop
only the buffer is loaded and `dirty` is set. -/
theorem writeClaimLoop_succ_unalloc (fuel : Nat) (st : CacheState) (sec_no : Nat)
    (h : (st.BClist st.next_BC_to_evict).alloc = false) :
    writeClaimLoop (fuel + 1) st sec_no =
      some ({ st with
                next_BC_to_evict := bumpCursor st.next_BC_to_evict
                BClist := Function.update st.BClist st.next_BC_to_evict
                  { st.BClist st.next_BC_to_evict with
                      buffer := st.disk sec_no, dirty := true } },
            st.next_BC_to_evict) := by
  simp [writeClaimLoop, h]

/-- Write loop, victim branch. -/
theorem writeClaimLoop_succ_victim (fuel : Nat) (st : CacheState) (sec_no : Nat)
    (h1 : (st.BClist st.next_BC_to_evict).alloc = true)
    (h2 : (st.BClist st.next_BC_to_evict).access = false) :
    writeClaimLoop (fuel + 1) st sec_no =
      some ({ st with
                next_BC_to_evict := bumpCursor st.next_BC_to_evict
                disk := if (st.BClist st.next_BC_to_evict).dirty then
                          rawDiskWrite st.disk (st.BClist st.next_BC_to_evict).sector
                            (st.BClist st.next_BC_to_evict).buffer
                        else st.disk
                BClist := Function.update st.BClist st.next_BC_to_evict
                  { st.BClist st.next_BC_to_evict with
                      buffer := (if (st.BClist st.next_BC_to_evict).dirty then
                                   rawDiskWrite st.disk
                                     (st.BClist st.next_BC_to_evict).sector
                                     (st.BClist st.next_BC_to_evict).buffer
                                 else st.disk) sec_no
                      dirty := true } },
            st.next_BC_to_evict) := by
  simp [writeClaimLoop, h1, h2]

/-- Write loop, skip branch. -/
theorem writeClaimLoop_succ_skip (fuel : Nat) (st : CacheState) (sec_no : Nat)
    (h1 : (st.BClist st.next_BC_to_evict).alloc = true)
    (h2 : (st.BClist st.next_BC_to_evict).access = true) :
    writeClaimLoop (fuel + 1) st sec_no =
      writeClaimLoop fuel
        { st with
            next_BC_to_evict := bumpCursor st.next_BC_to_evict
            BClist := Function.update st.BClist st.next_BC_to_evict
              { st.BClist st.next_BC_to_evict with access := false } }
        sec_no := by
  simp [writeClaimLoop, h1, h2]

/-! ### Termination of the claim loops -/

/-- Number of slots whose `access` flag is set. -/
def accessCount (st : CacheState) : Nat :=
  (Finset.univ.filter fun i : Fin 64 => (st.BClist i).access = true).card

theorem accessCount_le (st : CacheState) : accessCount st ≤ 64 := by
  calc accessCount st ≤ (Finset.univ : Finset (Fin 64)).card :=
        Finset.card_filter_le _ _
    _ = 64 := by simp

theorem accessCount_update_lt (st : CacheState) (i : Fin 64) (bc' : BC)
    (h : (st.BClist i).access = true) (h2 : bc'.access = false) :
    accessCount { st with BClist := Function.update st.BClist i bc' } <
      accessCount st := by
  apply Finset.card_lt_card
  constructor
  · intro j hj
    simp only [Finset.mem_filter, Finset.mem_univ, true_and] at hj ⊢
    rcases eq_or_ne j i with rfl | hne
    · simp [Function.update_same] at hj
      rw [h2] at hj; cases hj
    · simpa [Function.update_noteq hne] using hj
  · intro hsub
    have hi : i ∈ Finset.univ.filter fun j : Fin 64 => (st.BClist j).access = true := by
      simp [h]
    have := hsub hi
    simp [Function.update_same, h2] at this

/-- The claim loop of `_disk_read` returns a victim whenever the fuel
exceeds the number of slots with `access` set: every non-claiming
iteration clears one `access` flag. -/
theorem readClaimLoop_total (fuel : Nat) :
    ∀ (st : CacheState) (sec_no : Nat), accessCount st < fuel →
      (readClaimLoop fuel st sec_no).isSome := by
  induction fuel with
  | zero => intro st sec_no h; omega
  | succ n ih =>
    intro st sec_no h
    by_cases h1 : (st.BClist st.next_BC_to_evict).alloc = false
    · rw [readClaimLoop_succ_unalloc n st sec_no h1]; rfl
    · rw [Bool.not_eq_false] at h1
      by_cases h2 : (st.BClist st.next_BC_to_evict).access = false
      · rw [readClaimLoop_succ_victim n st sec_no h1 h2]; rfl
      · rw [Bool.not_eq_false] at h2
        rw [readClaimLoop_succ_skip n st sec_no h1 h2]
        apply ih
        have hlt := accessCount_update_lt st st.next_BC_to_evict
          { st.BClist st.next_BC_to_evict with access := false } h2 rfl
        exact lt_of_lt_of_le hlt (Nat.lt_succ_iff.mp h)

/-- Same bound for the claim loop of `_disk_write`. -/
theorem writeClaimLoop_total (fuel : Nat) :
    ∀ (st : CacheState) (sec_no : Nat), accessCount st < fuel →
      (writeClaimLoop fuel st sec_no).isSome := by
  induction fuel with
  | zero => intro st sec_no h; omega
  | succ n ih =>
    intro st sec_no h
    by_cases h1 : (st.BClist st.next_BC_to_evict).alloc = false
    · rw [writeClaimLoop_succ_unalloc n st sec_no h1]; rfl
    · rw [Bool.not_eq_false] at h1
      by_cases h2 : (st.BClist st.next_BC_to_evict).access = false
      · rw [writeClaimLoop_succ_victim n st sec_no h1 h2]; rfl
      · rw [Bool.not_eq_false] at h2
        rw [writeClaimLoop_succ_skip n st sec_no h1 h2]
        apply ih
        have hlt := accessCount_update_lt st st.next_BC_to_evict
          { st.BClist st.next_BC_to_evict with access := false } h2 rfl
        exact lt_of_lt_of_le hlt (Nat.lt_succ_iff.mp h)

/-- Slot at circular distance `k` ahead of the eviction cursor. -/
def slotDist (st : CacheState) (k : Nat) : Fin 64 :=
  ⟨(st.next_BC_to_evict.val + k) % 64, by omega⟩

/-- If the slot at circular distance `k < 64` from the cursor is
claimable (unallocated, or `access` clear), the read claim loop
finishes within `k + 1` iterations. -/
theorem readClaim_within (k : Nat) :
    ∀ (st : CacheState) (sec_no fuel : Nat), k < 64 → k < fuel →
      ((st.BClist (slotDist st k)).alloc = false ∨
        (st.BClist (slotDist st k)).access = false) →
      (readClaimLoop fuel st sec_no).isSome := by
  induction k with
  | zero =>
    intro st sec_no fuel _ hfuel hcl
    obtain ⟨m, rfl⟩ : ∃ m, fuel = m + 1 := ⟨fuel - 1, by omega⟩
    have h0 : slotDist st 0 = st.next_BC_to_evict :=
      Fin.ext (by simp [slotDist, Nat.mod_eq_of_lt st.next_BC_to_evict.isLt])
    rw [h0] at hcl
    by_cases h1 : (st.BClist st.next_BC_to_evict).alloc = false
    · rw [readClaimLoop_succ_unalloc m st sec_no h1]; rfl
    · rw [Bool.not_eq_false] at h1
      have h2 : (st.BClist st.next_BC_to_evict).access = false := by
        rcases hcl with h | h
        · rw [h1] at h; cases h
        · exact h
      rw [readClaimLoop_succ_victim m st sec_no h1 h2]; rfl
  | succ k ih =>
    intro st sec_no fuel hk hfuel hcl
    obtain ⟨m, rfl⟩ : ∃ m, fuel = m + 1 := ⟨fuel - 1, by omega⟩
    by_cases h1 : (st.BClist st.next_BC_to_evict).alloc = false
    · rw [readClaimLoop_succ_unalloc m st sec_no h1]; rfl
    · rw [Bool.not_eq_false] at h1
      by_cases h2 : (st.BClist st.next_BC_to_evict).access = false
      · rw [readClaimLoop_succ_victim m st sec_no h1 h2]; rfl
      · rw [Bool.not_eq_false] at h2
        rw [readClaimLoop_succ_skip m st sec_no h1 h2]
        apply ih _ _ m (by omega) (by omega)
        have hcv := st.next_BC_to_evict.isLt
        have hne : slotDist st (k + 1) ≠ st.next_BC_to_evict := by
          intro he
          have := congrArg Fin.val he
          simp only [slotDist] at this
          omega
        have hidx :
            (slotDist
              { st with
                  next_BC_to_evict := bumpCursor st.next_BC_to_evict
                  BClist := Function.update st.BClist st.next_BC_to_evict
                    { st.BClist st.next_BC_to_evict with access := false } } k) =
            slotDist st (k + 1) := by
          apply Fin.ext
          simp only [slotDist, bumpCursor]
          omega
        rw [hidx]
        simpa [Function.update_noteq hne] using hcl

/-- Same bound for the write claim loop. -/
theorem writeClaim_within (k : Nat) :
    ∀ (st : CacheState) (sec_no fuel : Nat), k < 64 → k < fuel →
      ((st.BClist (slotDist st k)).alloc = false ∨
        (st.BClist (slotDist st k)).access = false) →
      (writeClaimLoop fuel st sec_no).isSome := by
  induction k with
  | zero =>
    intro st sec_no fuel _ hfuel hcl
    obtain ⟨m, rfl⟩ : ∃ m, fuel = m + 1 := ⟨fuel - 1, by omega⟩
    have h0 : slotDist st 0 = st.next_BC_to_evict :=
      Fin.ext (by simp [slotDist, Nat.mod_eq_of_lt st.next_BC_to_evict.isLt])
    rw [h0] at hcl
    by_cases h1 : (st.BClist st.next_BC_to_evict).alloc = false
    · rw [writeClaimLoop_succ_unalloc m st sec_no h1]; rfl
    · rw [Bool.not_eq_false] at h1
      have h2 : (st.BClist st.next_BC_to_evict).access = false := by
        rcases hcl with h | h
        · rw [h1] at h; cases h
        · exact h
      rw [writeClaimLoop_succ_victim m st sec_no h1 h2]; rfl
  | succ k ih =>
    intro st sec_no fuel hk hfuel hcl
    obtain ⟨m, rfl⟩ : ∃ m, fuel = m + 1 := ⟨fuel - 1, by omega⟩
    by_cases h1 : (st.BClist st.next_BC_to_evict).alloc = false
    · rw [writeClaimLoop_succ_unalloc m st sec_no h1]; rfl
    · rw [Bool.not_eq_false] at h1
      by_cases h2 : (st.BClist st.next_BC_to_evict).access = false
      · rw [writeClaimLoop_succ_victim m st sec_no h1 h2]; rfl
      · rw [Bool.not_eq_false] at h2
        rw [writeClaimLoop_succ_skip m st sec_no h1 h2]
        apply ih _ _ m (by omega) (by omega)
        have hcv := st.next_BC_to_evict.isLt
        have hne : slotDist st (k + 1) ≠ st.next_BC_to_evict := by
          intro he
          have := congrArg Fin.val he
          simp only [slotDist] at this
          omega
        have hidx :
            (slotDist
              { st with
                  next_BC_to_evict := bumpCursor st.next_BC_to_evict
                  BClist := Function.update st.BClist st.next_BC_to_evict
                    { st.BClist st.next_BC_to_evict with access := false } } k) =
            slotDist st (k + 1) := by
          apply Fin.ext
          simp only [slotDist, bumpCursor]
          omega
        rw [hidx]
        simpa [Function.update_noteq hne] using hcl

/-- C10: the miss-handling claim loops of `_disk_read` and `_disk_write`
always terminate with a victim slot claimed: if some slot is
unallocated a victim is claimed within one revolution of the 64-slot
pool (fuel 64 suffices), and in every case — in particular in a full
pool, where each slot's access flag is cleared at most once before it
becomes evictable — a victim is found within at most two full
revolutions (fuel 128 suffices). -/
theorem C10_claim_loop_terminates (st : CacheState) (sec_no : Nat) :
    ((∃ i : Fin 64, (st.BClist i).alloc = false) →
       (readClaimLoop 64 st sec_no).isSome ∧ (writeClaimLoop 64 st sec_no).isSome)
    ∧ (readClaimLoop 128 st sec_no).isSome
    ∧ (writeClaimLoop 128 st sec_no).isSome := by
  refine ⟨?_, ?_, ?_⟩
  · rintro ⟨i, hi⟩
    have hc := st.next_BC_to_evict.isLt
    have hil := i.isLt
    have hdist : slotDist st ((i.val + 64 - st.next_BC_to_evict.val) % 64) = i := by
      apply Fin.ext
      simp only [slotDist]
      omega
    constructor
    · apply readClaim_within ((i.val + 64 - st.next_BC_to_evict.val) % 64) st sec_no 64
        (by omega) (by omega)
      rw [hdist]; exact Or.inl hi
    · apply writeClaim_within ((i.val + 64 - st.next_BC_to_evict.val) % 64) st sec_no 64
        (by omega) (by omega)
      rw [hdist]; exact Or.inl hi
  · exact readClaimLoop_total 128 st sec_no (by have := accessCount_le st; omega)
  · exact writeClaimLoop_total 128 st sec_no (by have := accessCount_le st; omega)

/-- Witness for C10 at a concrete freshly initialised cache state. -/
theorem C10_claim_loop_terminates_witness :
    (readClaimLoop 64 (inode_init (fun _ _ => 0) (fun _ _ => 0)) 5).isSome ∧
    (writeClaimLoop 128 (inode_init (fun _ _ => 0) (fun _ _ => 0)) 5).isSome :=
  ⟨((C10_claim_loop_terminates (inode_init (fun _ _ => 0) (fun _ _ => 0)) 5).1
      ⟨⟨0, by omega⟩, rfl⟩).1,
   (C10_claim_loop_terminates (inode_init (fun _ _ => 0) (fun _ _ => 0)) 5).2.2⟩

/-- C4: one iteration of the claim loops.  The loop takes the slot at
the eviction cursor and advances the cursor circularly; an unallocated
slot is claimed immediately; an allocated slot with `access` set has the
flag cleared and is skipped (it survives this eviction pass); an
allocated slot with `access` clear is the victim: when dirty its current
contents are written back to the raw device, then the requested sector
is loaded and (in the read loop; the write path completes this at its
`write:` label) the slot's sector id and flags are reset. -/
theorem C4_claim_loop_second_chance (fuel : Nat) (st : CacheState) (sec_no : Nat) :
    ((st.BClist st.next_BC_to_evict).alloc = false →
       readClaimLoop (fuel + 1) st sec_no =
         some ({ st with
                   next_BC_to_evict := bumpCursor st.next_BC_to_evict
                   BClist := Function.update st.BClist st.next_BC_to_evict
                     ⟨st.disk sec_no, sec_no, true, false, false⟩ },
               st.next_BC_to_evict)) ∧
    ((st.BClist st.next_BC_to_evict).alloc = true →
     (st.BClist st.next_BC_to_evict).access = true →
       readClaimLoop (fuel + 1) st sec_no =
         readClaimLoop fuel
           { st with
               next_BC_to_evict := bumpCursor st.next_BC_to_evict
               BClist := Function.update st.BClist st.next_BC_to_evict
                 { st.BClist st.next_BC_to_evict with access := false } }
           sec_no) ∧
    ((st.BClist st.next_BC_to_evict).alloc = true →
     (st.BClist st.next_BC_to_evict).access = false →
       readClaimLoop (fuel + 1) st sec_no =
         some ({ st with
                   next_BC_to_evict := bumpCursor st.next_BC_to_evict
                   disk := if (st.BClist st.next_BC_to_evict).dirty then
                             rawDiskWrite st.disk
                               (st.BClist st.next_BC_to_evict).sector
                               (st.BClist st.next_BC_to_evict).buffer
                           else st.disk
                   BClist := Function.update st.BClist st.next_BC_to_evict
                     ⟨(if (st.BClist st.next_BC_to_evict).dirty then
                         rawDiskWrite st.disk
                           (st.BClist st.next_BC_to_evict).sector
                           (st.BClist st.next_BC_to_evict).buffer
                       else st.disk) sec_no, sec_no, true, false, false⟩ },
               st.next_BC_to_evict)) ∧
    ((st.BClist st.next_BC_to_evict).alloc = false →
       writeClaimLoop (fuel + 1) st sec_no =
         some ({ st with
                   next_BC_to_evict := bumpCursor st.next_BC_to_evict
                   BClist := Function.update st.BClist st.next_BC_to_evict
                     { st.BClist st.next_BC_to_evict with
                         buffer := st.disk sec_no, dirty := true } },
               st.next_BC_to_evict)) ∧
    ((st.BClist st.next_BC_to_evict).alloc = true →
     (st.BClist st.next_BC_to_evict).access = true →
       writeClaimLoop (fuel + 1) st sec_no =
         writeClaimLoop fuel
           { st with
               next_BC_to_evict := bumpCursor st.next_BC_to_evict
               BClist := Function.update st.BClist st.next_BC_to_evict
                 { st.BClist st.next_BC_to_evict with access := false } }
           sec_no) ∧
    ((st.BClist st.next_BC_to_evict).alloc = true →
     (st.BClist st.next_BC_to_evict).access = false →
       writeClaimLoop (fuel + 1) st sec_no =
         some ({ st with
                   next_BC_to_evict := bumpCursor st.next_BC_to_evict
                   disk := if (st.BClist st.next_BC_to_evict).dirty then
                             rawDiskWrite st.disk
                               (st.BClist st.next_BC_to_evict).sector
                               (st.BClist st.next_BC_to_evict).buffer
                           else st.disk
                   BClist := Function.update st.BClist st.next_BC_to_evict
                     { st.BClist st.next_BC_to_evict with
                         buffer := (if (st.BClist st.next_BC_to_evict).dirty then
                                      rawDiskWrite st.disk
                                        (st.BClist st.next_BC_to_evict).sector
                                        (st.BClist st.next_BC_to_evict).buffer
                                    else st.disk) sec_no
                         dirty := true } },
               st.next_BC_to_evict)) :=
  ⟨fun h => readClaimLoop_succ_unalloc fuel st sec_no h,
   fun h1 h2 => readClaimLoop_succ_skip fuel st sec_no h1 h2,
   fun h1 h2 => readClaimLoop_succ_victim fuel st sec_no h1 h2,
   fun h => writeClaimLoop_succ_unalloc fuel st sec_no h,
   fun h1 h2 => writeClaimLoop_succ_skip fuel st sec_no h1 h2,
   fun h1 h2 => writeClaimLoop_succ_victim fuel st sec_no h1 h2⟩

/-- Witness for C4: the unallocated-slot branch evaluated on a freshly
initialised cache. -/
theorem C4_claim_loop_second_chance_witness :
    ∃ r, readClaimLoop 1 (inode_init (fun _ _ => 0) (fun _ _ => 0)) 5 = some r :=
  ⟨_, (C4_claim_loop_second_chance 0 (inode_init (fun _ _ => 0) (fun _ _ => 0)) 5).1 rfl⟩

/-! ### Single-threaded operation sequences and the specification view -/

/-- A single-threaded cache operation: `readThrough`/`writeThrough` with
a sector, an intra-sector byte offset, a length, and (for writes) the
caller's source bytes. -/
inductive CacheOp where
  | rd : Nat → Nat → Nat → CacheOp
  | wr : Nat → Nat → Nat → (Nat → Nat) → CacheOp

/-- Run one operation against the cache (the read's output bytes are
discarded; its state effects remain). -/
def runOp (st : CacheState) : CacheOp → CacheState
  | CacheOp.rd sec start len => (_disk_read st sec start len).2
  | CacheOp.wr sec start len src => _disk_write st sec src start len

/-- Run a sequence of operations, left to right. -/
def runOps (st : CacheState) (ops : List CacheOp) : CacheState :=
  ops.foldl runOp st

/-- The specification view of one operation on the logical disk
contents: a write overlays its bytes, a read changes nothing. -/
def applySpec (D : Nat → Nat → Nat) : CacheOp → Nat → Nat → Nat
  | CacheOp.rd _ _ _ => D
  | CacheOp.wr sec start len src =>
    fun s j => if s = sec ∧ start ≤ j ∧ j < start + len then src (j - start) else D s j

/-- The logical disk contents after a sequence of operations: each byte
holds the most recently written value, or the original contents if
never written. -/
def specDisk (D : Nat → Nat → Nat) (ops : List CacheOp) : Nat → Nat → Nat :=
  ops.foldl applySpec D

/-- Well-formed operation: `offset + length` stays within the sector
size (the caller-responsibility contract of the cache interface; the
requested sector is unrestricted). -/
def wfOp : CacheOp → Prop
  | CacheOp.rd _ start len => start + len ≤ SECTOR_SIZE
  | CacheOp.wr _ start len _ => start + len ≤ SECTOR_SIZE

/-- Cache coherence invariant relative to the logical disk contents `D`:
unallocated slots still carry the sentinel sector id; an allocated slot
holding a real (non-sentinel) sector is the only slot with that sector,
its buffer agrees with `D`, and when clean its raw-device copy agrees
with `D`; a real sector cached in no slot is up to date on the raw
device.  Slots whose sector field is the sentinel — never allocated, or
allocated by operations that named the sentinel sector and therefore
aliased slot-initialisation state — carry no tracked data. -/
structure CacheInv (D : Nat → Nat → Nat) (st : CacheState) : Prop where
  unalloc_sector : ∀ i : Fin 64, (st.BClist i).alloc = false →
    (st.BClist i).sector = SENTINEL
  distinct : ∀ i j : Fin 64, i ≠ j → (st.BClist i).alloc = true →
    (st.BClist j).alloc = true → (st.BClist i).sector ≠ SENTINEL →
    (st.BClist i).sector ≠ (st.BClist j).sector
  coherent : ∀ i : Fin 64, (st.BClist i).alloc = true →
    (st.BClist i).sector ≠ SENTINEL →
    ∀ j < 512, (st.BClist i).buffer j = D (st.BClist i).sector j
  clean : ∀ i : Fin 64, (st.BClist i).alloc = true →
    (st.BClist i).sector ≠ SENTINEL → (st.BClist i).dirty = false →
    ∀ j < 512, st.disk (st.BClist i).sector j = D (st.BClist i).sector j
  fresh : ∀ s, s ≠ SENTINEL → (∀ i : Fin 64, (st.BClist i).sector ≠ s) →
    ∀ j < 512, st.disk s j = D s j

/-- A freshly initialised cache is coherent with the initial disk. -/
theorem CacheInv_init (bufs : Fin 64 → Nat → Nat) (disk0 : Nat → Nat → Nat) :
    CacheInv disk0 (inode_init bufs disk0) := by
  refine ⟨?_, ?_, ?_, ?_, ?_⟩
  · intro i _; rfl
  · intro i j _ hi _ _; simp [inode_init] at hi
  · intro i hi; simp [inode_init] at hi
  · intro i hi; simp [inode_init] at hi
  · intro s _ _ j _; rfl

/-- `CacheInv` ignores the cursor and the `access` flags. -/
theorem CacheInv_congr (D : Nat → Nat → Nat) (st st' : CacheState)
    (hdisk : st'.disk = st.disk)
    (hb : ∀ k, (st'.BClist k).buffer = (st.BClist k).buffer)
    (hs : ∀ k, (st'.BClist k).sector = (st.BClist k).sector)
    (ha : ∀ k, (st'.BClist k).alloc = (st.BClist k).alloc)
    (hd : ∀ k, (st'.BClist k).dirty = (st.BClist k).dirty)
    (h : CacheInv D st) : CacheInv D st' := by
  refine ⟨?_, ?_, ?_, ?_, ?_⟩
  · intro i hi; rw [hs]; exact h.unalloc_sector i (by rw [← ha i]; exact hi)
  · intro i j hij hi hj hsent
    rw [hs, hs]
    refine h.distinct i j hij (by rw [← ha i]; exact hi)
      (by rw [← ha j]; exact hj) ?_
    rw [← hs i]; exact hsent
  · intro i hi hsent j hj
    rw [hb, hs]
    exact h.coherent i (by rw [← ha i]; exact hi)
      (by rw [← hs i]; exact hsent) j hj
  · intro i hi hsent hdi j hj
    rw [hs, hdisk]
    exact h.clean i (by rw [← ha i]; exact hi) (by rw [← hs i]; exact hsent)
      (by rw [← hd i]; exact hdi) j hj
  · intro s hs1 hs2 j hj
    rw [hdisk]
    refine h.fresh s hs1 (fun i => ?_) j hj
    rw [← hs i]; exact hs2 i

/-- `CacheInv` constrains `D` only at non-sentinel sectors, so logical
disks agreeing away from the sentinel sector are interchangeable. -/
theorem CacheInv_spec_congr (D D' : Nat → Nat → Nat) (st : CacheState)
    (hDD : ∀ s, s ≠ SENTINEL → ∀ j, D' s j = D s j)
    (h : CacheInv D st) : CacheInv D' st := by
  refine ⟨h.unalloc_sector, h.distinct, ?_, ?_, ?_⟩
  · intro i hi hsent j hj
    rw [hDD _ hsent]
    exact h.coherent i hi hsent j hj
  · intro i hi hsent hd j hj
    rw [hDD _ hsent]
    exact h.clean i hi hsent hd j hj
  · intro s hs hnot j hj
    rw [hDD _ hs]
    exact h.fresh s hs hnot j hj

/-! ### Scan lemmas -/

/-- A failed scan means no slot carries the sector. -/
theorem scanFrom_none_aux (st : CacheState) (sec_no : Nat) :
    ∀ fuel i, 64 ≤ i + fuel → scanFrom st sec_no fuel i = none →
      ∀ j : Fin 64, i ≤ j.val → (st.BClist j).sector ≠ sec_no := by
  intro fuel
  induction fuel with
  | zero => intro i hi _ j hij; have := j.isLt; omega
  | succ n ih =>
    intro i hi hscan j hij
    rw [scanFrom] at hscan
    by_cases h : i < 64
    · rw [dif_pos h] at hscan
      by_cases he : (st.BClist ⟨i, h⟩).sector = sec_no
      · rw [if_pos he] at hscan; cases hscan
      · rw [if_neg he] at hscan
        rcases Nat.eq_or_lt_of_le hij with heq | hlt
        · have : j = ⟨i, h⟩ := Fin.ext heq.symm
          rw [this]; exact he
        · exact ih (i + 1) (by omega) hscan j hlt
    · have := j.isLt; omega

theorem scanHit_none (st : CacheState) (sec_no : Nat)
    (h : scanHit st sec_no = none) (j : Fin 64) :
    (st.BClist j).sector ≠ sec_no :=
  scanFrom_none_aux st sec_no 64 0 (by omega) h j (Nat.zero_le _)

/-- A successful scan returns the first slot carrying the sector. -/
theorem scanFrom_some_aux (st : CacheState) (sec_no : Nat) :
    ∀ fuel i v, scanFrom st sec_no fuel i = some v →
      i ≤ v.val ∧ (st.BClist v).sector = sec_no ∧
        ∀ j : Fin 64, i ≤ j.val → j.val < v.val → (st.BClist j).sector ≠ sec_no := by
  intro fuel
  induction fuel with
  | zero => intro i v hscan; cases hscan
  | succ n ih =>
    intro i v hscan
    rw [scanFrom] at hscan
    by_cases h : i < 64
    · rw [dif_pos h] at hscan
      by_cases he : (st.BClist ⟨i, h⟩).sector = sec_no
      · rw [if_pos he] at hscan
        cases hscan
        refine ⟨Nat.le_refl _, he, fun j h1 h2 => ?_⟩
        exfalso
        have hv : (⟨i, h⟩ : Fin 64).val = i := rfl
        omega
      · rw [if_neg he] at hscan
        obtain ⟨h1, h2, h3⟩ := ih (i + 1) v hscan
        refine ⟨by omega, h2, fun j hj1 hj2 => ?_⟩
        rcases Nat.eq_or_lt_of_le hj1 with heq | hlt
        · have : j = ⟨i, h⟩ := Fin.ext heq.symm
          rw [this]; exact he
        · exact h3 j hlt hj2
    · rw [dif_neg h] at hscan; cases hscan

theorem scanHit_some (st : CacheState) (sec_no : Nat) (v : Fin 64)
    (h : scanHit st sec_no = some v) :
    (st.BClist v).sector = sec_no ∧
      ∀ j : Fin 64, j.val < v.val → (st.BClist j).sector ≠ sec_no := by
  obtain ⟨_, h2, h3⟩ := scanFrom_some_aux st sec_no 64 0 v h
  exact ⟨h2, fun j hj => h3 j (Nat.zero_le _) hj⟩

/-! ### Coherence across the claim loops -/

/-- Claiming a slot for a missed sector preserves coherence: the common
shape of both claim branches of `_disk_read`.  `d'` is the raw-disk
contents after the (possible) write-back; the hypotheses record exactly
what the write-back guarantees. -/
theorem CacheInv_claim (D : Nat → Nat → Nat) (st : CacheState) (c : Fin 64)
    (c' : Fin 64) (d' : Nat → Nat → Nat) (sec_no : Nat)
    (hsec : sec_no ≠ SENTINEL)
    (hmiss : ∀ i : Fin 64, (st.BClist i).sector ≠ sec_no)
    (hInv : CacheInv D st)
    (hd'sec : ∀ j < 512, d' sec_no j = D sec_no j)
    (hd'pres : ∀ s, s ≠ SENTINEL → (∀ i : Fin 64, (st.BClist i).sector ≠ s) →
      ∀ j < 512, d' s j = D s j)
    (hd'clean : ∀ k : Fin 64, k ≠ c → (st.BClist k).alloc = true →
      (st.BClist k).sector ≠ SENTINEL → (st.BClist k).dirty = false →
      ∀ j < 512, d' (st.BClist k).sector j = D (st.BClist k).sector j)
    (hd'old : (st.BClist c).alloc = true → (st.BClist c).sector ≠ SENTINEL →
      ∀ j < 512, d' (st.BClist c).sector j = D (st.BClist c).sector j) :
    CacheInv D
      ⟨Function.update st.BClist c ⟨d' sec_no, sec_no, true, false, false⟩, c', d'⟩ := by
  refine ⟨?_, ?_, ?_, ?_, ?_⟩ <;> dsimp only
  · intro k hk
    rcases eq_or_ne k c with rfl | hne
    · rw [Function.update_same] at hk; cases hk
    · rw [Function.update_noteq hne] at hk ⊢
      exact hInv.unalloc_sector k hk
  · intro k l hkl hk hl hsent
    rcases eq_or_ne k c with rfl | hnk
    · rw [Function.update_same]
      rcases eq_or_ne l k with rfl | hnl
      · exact absurd rfl hkl
      · rw [Function.update_noteq hnl]
        exact fun he => hmiss l he.symm
    · rw [Function.update_noteq hnk] at hk hsent ⊢
      rcases eq_or_ne l c with rfl | hnl
      · rw [Function.update_same]
        exact hmiss k
      · rw [Function.update_noteq hnl] at hl ⊢
        exact hInv.distinct k l hkl hk hl hsent
  · intro k hk hsent j hj
    rcases eq_or_ne k c with rfl | hne
    · rw [Function.update_same]
      exact hd'sec j hj
    · rw [Function.update_noteq hne] at hk hsent ⊢
      exact hInv.coherent k hk hsent j hj
  · intro k hk hsent hd j hj
    rcases eq_or_ne k c with rfl | hne
    · rw [Function.update_same]
      exact hd'sec j hj
    · rw [Function.update_noteq hne] at hk hsent hd ⊢
      exact hd'clean k hne hk hsent hd j hj
  · intro s hs hnot j hj
    by_cases hsc : s = (st.BClist c).sector
    · subst hsc
      by_cases hac : (st.BClist c).alloc = true
      · exact hd'old hac hs j hj
      · rw [Bool.not_eq_true] at hac
        exact absurd (hInv.unalloc_sector c hac) hs
    · refine hd'pres s hs (fun i => ?_) j hj
      rcases eq_or_ne i c with rfl | hne
      · exact fun he => hsc he.symm
      · have := hnot i
        rw [Function.update_noteq hne] at this
        exact this

/-- The read claim loop: on a miss it yields a coherent state in which
the victim slot holds the requested sector, freshly loaded. -/
theorem readClaimLoop_inv (D : Nat → Nat → Nat) (sec_no : Nat)
    (hsec : sec_no ≠ SENTINEL) :
    ∀ (fuel : Nat) (st st' : CacheState) (v : Fin 64), CacheInv D st →
      (∀ i : Fin 64, (st.BClist i).sector ≠ sec_no) →
      readClaimLoop fuel st sec_no = some (st', v) →
      CacheInv D st' ∧ (st'.BClist v).sector = sec_no ∧
        (st'.BClist v).alloc = true ∧
        (st'.BClist v).buffer = st'.disk sec_no ∧
        (∀ j < 512, st'.disk sec_no j = D sec_no j) := by
  intro fuel
  induction fuel with
  | zero => intro st st' v _ _ h; simp [readClaimLoop] at h
  | succ n ih =>
    intro st st' v hInv hmiss hloop
    by_cases h1 : (st.BClist st.next_BC_to_evict).alloc = false
    · rw [readClaimLoop_succ_unalloc n st sec_no h1] at hloop
      injection hloop with h
      injection h with h2 h3
      subst h2; subst h3
      have hfresh := hInv.fresh sec_no hsec hmiss
      have hmain := CacheInv_claim D st st.next_BC_to_evict
        (bumpCursor st.next_BC_to_evict) st.disk sec_no hsec hmiss hInv
        hfresh
        (fun s hs hnone => hInv.fresh s hs hnone)
        (fun k _ hk hks hd => hInv.clean k hk hks hd)
        (fun hac _ => absurd hac (by rw [h1]; exact Bool.false_ne_true))
      refine ⟨hmain, ?_, ?_, ?_, ?_⟩ <;> dsimp only
      · rw [Function.update_same]
      · rw [Function.update_same]
      · rw [Function.update_same]
      · exact hfresh
    · rw [Bool.not_eq_false] at h1
      by_cases h2 : (st.BClist st.next_BC_to_evict).access = false
      · rw [readClaimLoop_succ_victim n st sec_no h1 h2] at hloop
        injection hloop with h
        injection h with h3 h4
        subst h3; subst h4
        have ht := hmiss st.next_BC_to_evict
        have hd'sec : ∀ j < 512,
            (if (st.BClist st.next_BC_to_evict).dirty then
               rawDiskWrite st.disk (st.BClist st.next_BC_to_evict).sector
                 (st.BClist st.next_BC_to_evict).buffer
             else st.disk) sec_no j = D sec_no j := by
          intro j hj
          by_cases hd : (st.BClist st.next_BC_to_evict).dirty
          · rw [if_pos hd]
            unfold rawDiskWrite
            rw [if_neg (fun he => ht he.symm)]
            exact hInv.fresh sec_no hsec hmiss j hj
          · rw [if_neg hd]
            exact hInv.fresh sec_no hsec hmiss j hj
        have hd'old : (st.BClist st.next_BC_to_evict).alloc = true →
            (st.BClist st.next_BC_to_evict).sector ≠ SENTINEL →
            ∀ j < 512,
              (if (st.BClist st.next_BC_to_evict).dirty then
                 rawDiskWrite st.disk (st.BClist st.next_BC_to_evict).sector
                   (st.BClist st.next_BC_to_evict).buffer
               else st.disk) (st.BClist st.next_BC_to_evict).sector j =
                D (st.BClist st.next_BC_to_evict).sector j := by
          intro hac hcs j hj
          by_cases hd : (st.BClist st.next_BC_to_evict).dirty
          · rw [if_pos hd]
            unfold rawDiskWrite
            rw [if_pos rfl]
            exact hInv.coherent st.next_BC_to_evict hac hcs j hj
          · rw [if_neg hd]
            exact hInv.clean st.next_BC_to_evict hac hcs (Bool.not_eq_true _ ▸ hd) j hj
        have hmain := CacheInv_claim D st st.next_BC_to_evict
          (bumpCursor st.next_BC_to_evict)
          (if (st.BClist st.next_BC_to_evict).dirty then
             rawDiskWrite st.disk (st.BClist st.next_BC_to_evict).sector
               (st.BClist st.next_BC_to_evict).buffer
           else st.disk) sec_no hsec hmiss hInv
          hd'sec
          (fun s hs hnone j hj => by
            by_cases hd : (st.BClist st.next_BC_to_evict).dirty
            · rw [if_pos hd]
              unfold rawDiskWrite
              rw [if_neg (fun he => hnone st.next_BC_to_evict he.symm)]
              exact hInv.fresh s hs hnone j hj
            · rw [if_neg hd]
              exact hInv.fresh s hs hnone j hj)
          (fun k hkc hk hks hdk j hj => by
            by_cases hd : (st.BClist st.next_BC_to_evict).dirty
            · have hkc2 : (st.BClist k).sector ≠
                  (st.BClist st.next_BC_to_evict).sector := by
                by_cases hcs : (st.BClist st.next_BC_to_evict).sector = SENTINEL
                · exact fun he => hks (he.trans hcs)
                · exact hInv.distinct k st.next_BC_to_evict hkc hk h1 hks
              rw [if_pos hd]
              unfold rawDiskWrite
              rw [if_neg hkc2]
              exact hInv.clean k hk hks hdk j hj
            · rw [if_neg hd]
              exact hInv.clean k hk hks hdk j hj)
          hd'old
        refine ⟨hmain, ?_, ?_, ?_, ?_⟩ <;> dsimp only
        · rw [Function.update_same]
        · rw [Function.update_same]
        · rw [Function.update_same]
        · exact hd'sec
      · rw [Bool.not_eq_false] at h2
        rw [readClaimLoop_succ_skip n st sec_no h1 h2] at hloop
        refine ih _ st' v ?_ ?_ hloop
        · refine CacheInv_congr D st _ rfl ?_ ?_ ?_ ?_ hInv <;>
            (intro k; dsimp only;
             rcases eq_or_ne k st.next_BC_to_evict with rfl | hne) <;>
            simp [Function.update_apply, *]
        · intro i
          dsimp only
          rcases eq_or_ne i st.next_BC_to_evict with rfl | hne
          · simpa [Function.update_same] using hmiss st.next_BC_to_evict
          · simpa [Function.update_noteq hne] using hmiss i

/-- State of `_disk_write` on a miss, between the claim loop and the
`write:` label: slot `v` has been claimed (buffer loaded from the raw
device, `dirty` set) but its `sector`/`alloc`/`access` fields are not
yet updated; every other slot holding a real sector is coherent. -/
structure PreWrite (D : Nat → Nat → Nat) (sec_no : Nat) (st : CacheState)
    (v : Fin 64) : Prop where
  pual : ∀ k : Fin 64, k ≠ v → (st.BClist k).alloc = false →
    (st.BClist k).sector = SENTINEL
  pdist : ∀ k l : Fin 64, k ≠ l → k ≠ v → l ≠ v → (st.BClist k).alloc = true →
    (st.BClist l).alloc = true → (st.BClist k).sector ≠ SENTINEL →
    (st.BClist k).sector ≠ (st.BClist l).sector
  pcoh : ∀ k : Fin 64, k ≠ v → (st.BClist k).alloc = true →
    (st.BClist k).sector ≠ SENTINEL →
    ∀ j < 512, (st.BClist k).buffer j = D (st.BClist k).sector j
  pclean : ∀ k : Fin 64, k ≠ v → (st.BClist k).alloc = true →
    (st.BClist k).sector ≠ SENTINEL → (st.BClist k).dirty = false →
    ∀ j < 512, st.disk (st.BClist k).sector j = D (st.BClist k).sector j
  pfresh : ∀ s, s ≠ SENTINEL → s ≠ sec_no →
    (∀ k : Fin 64, k ≠ v → (st.BClist k).sector ≠ s) →
    ∀ j < 512, st.disk s j = D s j
  pnc : ∀ k : Fin 64, k ≠ v → (st.BClist k).sector ≠ sec_no
  pvbuf : (st.BClist v).buffer = st.disk sec_no
  pvdirty : (st.BClist v).dirty = true
  pvdisk : ∀ j < 512, st.disk sec_no j = D sec_no j

/-- Claiming a slot in the write loop: the common shape of both claim
branches of `_disk_write`. -/
theorem PreWrite_claim (D : Nat → Nat → Nat) (st : CacheState) (c : Fin 64)
    (c' : Fin 64) (d' : Nat → Nat → Nat) (sec_no : Nat)
    (hmiss : ∀ i : Fin 64, (st.BClist i).sector ≠ sec_no)
    (hInv : CacheInv D st)
    (hd'sec : ∀ j < 512, d' sec_no j = D sec_no j)
    (hd'pres : ∀ s, s ≠ SENTINEL → (∀ i : Fin 64, (st.BClist i).sector ≠ s) →
      ∀ j < 512, d' s j = D s j)
    (hd'clean : ∀ k : Fin 64, k ≠ c → (st.BClist k).alloc = true →
      (st.BClist k).sector ≠ SENTINEL → (st.BClist k).dirty = false →
      ∀ j < 512, d' (st.BClist k).sector j = D (st.BClist k).sector j)
    (hd'old : (st.BClist c).alloc = true → (st.BClist c).sector ≠ SENTINEL →
      ∀ j < 512, d' (st.BClist c).sector j = D (st.BClist c).sector j) :
    PreWrite D sec_no
      ⟨Function.update st.BClist c
          { st.BClist c with buffer := d' sec_no, dirty := true }, c', d'⟩ c := by
  refine ⟨?_, ?_, ?_, ?_, ?_, ?_, ?_, ?_, ?_⟩ <;> dsimp only
  · intro k hk ha
    rw [Function.update_noteq hk] at ha ⊢
    exact hInv.unalloc_sector k ha
  · intro k l hkl hk hl hak hal hsent
    rw [Function.update_noteq hk] at hak hsent ⊢
    rw [Function.update_noteq hl] at hal ⊢
    exact hInv.distinct k l hkl hak hal hsent
  · intro k hk ha hsent j hj
    rw [Function.update_noteq hk] at ha hsent ⊢
    exact hInv.coherent k ha hsent j hj
  · intro k hk ha hsent hd j hj
    rw [Function.update_noteq hk] at ha hsent hd ⊢
    exact hd'clean k hk ha hsent hd j hj
  · intro s hs hssec hnot j hj
    by_cases hsc : s = (st.BClist c).sector
    · subst hsc
      by_cases hac : (st.BClist c).alloc = true
      · exact hd'old hac hs j hj
      · rw [Bool.not_eq_true] at hac
        exact absurd (hInv.unalloc_sector c hac) hs
    · refine hd'pres s hs (fun i => ?_) j hj
      rcases eq_or_ne i c with rfl | hne
      · exact fun he => hsc he.symm
      · have := hnot i hne
        rw [Function.update_noteq hne] at this
        exact this
  · intro k hk
    rw [Function.update_noteq hk]
    exact hmiss k
  · rw [Function.update_same]
  · rw [Function.update_same]
  · exact hd'sec

/-- The write claim loop establishes `PreWrite`. -/
theorem writeClaimLoop_pre (D : Nat → Nat → Nat) (sec_no : Nat)
    (hsec : sec_no ≠ SENTINEL) :
    ∀ (fuel : Nat) (st st' : CacheState) (v : Fin 64), CacheInv D st →
      (∀ i : Fin 64, (st.BClist i).sector ≠ sec_no) →
      writeClaimLoop fuel st sec_no = some (st', v) →
      PreWrite D sec_no st' v := by
  intro fuel
  induction fuel with
  | zero => intro st st' v _ _ h; simp [writeClaimLoop] at h
  | succ n ih =>
    intro st st' v hInv hmiss hloop
    by_cases h1 : (st.BClist st.next_BC_to_evict).alloc = false
    · rw [writeClaimLoop_succ_unalloc n st sec_no h1] at hloop
      injection hloop with h
      injection h with h2 h3
      subst h2; subst h3
      exact PreWrite_claim D st st.next_BC_to_evict
        (bumpCursor st.next_BC_to_evict) st.disk sec_no hmiss hInv
        (hInv.fresh sec_no hsec hmiss)
        (fun s hs hnone => hInv.fresh s hs hnone)
        (fun k _ hk hks hd => hInv.clean k hk hks hd)
        (fun hac _ => absurd hac (by rw [h1]; exact Bool.false_ne_true))
    · rw [Bool.not_eq_false] at h1
      by_cases h2 : (st.BClist st.next_BC_to_evict).access = false
      · rw [writeClaimLoop_succ_victim n st sec_no h1 h2] at hloop
        injection hloop with h
        injection h with h3 h4
        subst h3; subst h4
        have ht := hmiss st.next_BC_to_evict
        refine PreWrite_claim D st st.next_BC_to_evict
          (bumpCursor st.next_BC_to_evict) _ sec_no hmiss hInv ?_ ?_ ?_ ?_
        · intro j hj
          by_cases hd : (st.BClist st.next_BC_to_evict).dirty
          · rw [if_pos hd]
            unfold rawDiskWrite
            rw [if_neg (fun he => ht he.symm)]
            exact hInv.fresh sec_no hsec hmiss j hj
          · rw [if_neg hd]
            exact hInv.fresh sec_no hsec hmiss j hj
        · intro s hs hnone j hj
          by_cases hd : (st.BClist st.next_BC_to_evict).dirty
          · rw [if_pos hd]
            unfold rawDiskWrite
            rw [if_neg (fun he => hnone st.next_BC_to_evict he.symm)]
            exact hInv.fresh s hs hnone j hj
          · rw [if_neg hd]
            exact hInv.fresh s hs hnone j hj
        · intro k hkc hk hks hdk j hj
          by_cases hd : (st.BClist st.next_BC_to_evict).dirty
          · have hkc2 : (st.BClist k).sector ≠
                (st.BClist st.next_BC_to_evict).sector := by
              by_cases hcs : (st.BClist st.next_BC_to_evict).sector = SENTINEL
              · exact fun he => hks (he.trans hcs)
              · exact hInv.distinct k st.next_BC_to_evict hkc hk h1 hks
            rw [if_pos hd]
            unfold rawDiskWrite
            rw [if_neg hkc2]
            exact hInv.clean k hk hks hdk j hj
          · rw [if_neg hd]
            exact hInv.clean k hk hks hdk j hj
        · intro hac hcs j hj
          by_cases hd : (st.BClist st.next_BC_to_evict).dirty
          · rw [if_pos hd]
            unfold rawDiskWrite
            rw [if_pos rfl]
            exact hInv.coherent st.next_BC_to_evict hac hcs j hj
          · rw [if_neg hd]
            exact hInv.clean st.next_BC_to_evict hac hcs (Bool.not_eq_true _ ▸ hd) j hj
      · rw [Bool.not_eq_false] at h2
        rw [writeClaimLoop_succ_skip n st sec_no h1 h2] at hloop
        refine ih _ st' v ?_ ?_ hloop
        · refine CacheInv_congr D st _ rfl ?_ ?_ ?_ ?_ hInv <;>
            (intro k; dsimp only;
             rcases eq_or_ne k st.next_BC_to_evict with rfl | hne) <;>
            simp [Function.update_apply, *]
        · intro i
          dsimp only
          rcases eq_or_ne i st.next_BC_to_evict with rfl | hne
          · simpa [Function.update_same] using hmiss st.next_BC_to_evict
          · simpa [Function.update_noteq hne] using hmiss i

/-- The `write:` label of `_disk_write`: overlaying the caller's bytes
onto a slot whose buffer held the logical contents of `sec_no`, then
setting `sector := sec_no`, `alloc`, `access` and keeping `dirty` set,
yields a state coherent with the overlaid logical disk. -/
theorem CacheInv_write_label (D : Nat → Nat → Nat) (sec_no : Nat)
    (src : Nat → Nat) (start len : Nat) (st : CacheState) (v : Fin 64)
    (b0 : Nat → Nat) (db : Bool) (c' : Fin 64)
    (hsec : sec_no ≠ SENTINEL) (hlen : start + len ≤ 512) (hdb : db = true)
    (hvb : ∀ j < 512, b0 j = D sec_no j)
    (hual : ∀ k : Fin 64, k ≠ v → (st.BClist k).alloc = false →
      (st.BClist k).sector = SENTINEL)
    (hdist : ∀ k l : Fin 64, k ≠ l → k ≠ v → l ≠ v →
      (st.BClist k).alloc = true → (st.BClist l).alloc = true →
      (st.BClist k).sector ≠ SENTINEL →
      (st.BClist k).sector ≠ (st.BClist l).sector)
    (hcoh : ∀ k : Fin 64, k ≠ v → (st.BClist k).alloc = true →
      (st.BClist k).sector ≠ SENTINEL →
      ∀ j < 512, (st.BClist k).buffer j = D (st.BClist k).sector j)
    (hclean : ∀ k : Fin 64, k ≠ v → (st.BClist k).alloc = true →
      (st.BClist k).sector ≠ SENTINEL → (st.BClist k).dirty = false →
      ∀ j < 512, st.disk (st.BClist k).sector j = D (st.BClist k).sector j)
    (hfresh : ∀ s, s ≠ SENTINEL → s ≠ sec_no →
      (∀ k : Fin 64, k ≠ v → (st.BClist k).sector ≠ s) →
      ∀ j < 512, st.disk s j = D s j)
    (hnc : ∀ k : Fin 64, k ≠ v → (st.BClist k).sector ≠ sec_no) :
    CacheInv (applySpec D (CacheOp.wr sec_no start len src))
      ⟨Function.update st.BClist v
          ⟨memcpyIn b0 start src len, sec_no, true, true, db⟩, c', st.disk⟩ := by
  have hD' : ∀ s, s ≠ sec_no → ∀ j,
      applySpec D (CacheOp.wr sec_no start len src) s j = D s j := by
    intro s hsne j
    simp only [applySpec]
    rw [if_neg (fun hc => hsne hc.1)]
  refine ⟨?_, ?_, ?_, ?_, ?_⟩ <;> dsimp only
  · intro k hk
    rcases eq_or_ne k v with rfl | hne
    · rw [Function.update_same] at hk; cases hk
    · rw [Function.update_noteq hne] at hk ⊢
      exact hual k hne hk
  · intro k l hkl hk hl hsent
    rcases eq_or_ne k v with rfl | hnk
    · rw [Function.update_same]
      rcases eq_or_ne l k with rfl | hnl
      · exact absurd rfl hkl
      · rw [Function.update_noteq hnl]
        exact fun he => hnc l hnl he.symm
    · rw [Function.update_noteq hnk] at hk hsent ⊢
      rcases eq_or_ne l v with rfl | hnl
      · rw [Function.update_same]
        exact hnc k hnk
      · rw [Function.update_noteq hnl] at hl ⊢
        exact hdist k l hkl hnk hnl hk hl hsent
  · intro k hk hsent j hj
    rcases eq_or_ne k v with rfl | hne
    · rw [Function.update_same]
      show (if start ≤ j ∧ j < start + len then src (j - start) else b0 j) =
        (if sec_no = sec_no ∧ start ≤ j ∧ j < start + len then src (j - start)
         else D sec_no j)
      by_cases hin : start ≤ j ∧ j < start + len
      · rw [if_pos hin, if_pos ⟨rfl, hin⟩]
      · rw [if_neg hin, if_neg (fun hc => hin hc.2)]
        exact hvb j hj
    · rw [Function.update_noteq hne] at hk hsent ⊢
      rw [hD' (st.BClist k).sector (hnc k hne) j]
      exact hcoh k hne hk hsent j hj
  · intro k hk hsent hd j hj
    rcases eq_or_ne k v with rfl | hne
    · rw [Function.update_same] at hd
      rw [hdb] at hd; cases hd
    · rw [Function.update_noteq hne] at hk hsent hd ⊢
      rw [hD' (st.BClist k).sector (hnc k hne) j]
      exact hclean k hne hk hsent hd j hj
  · intro s hs hnot j hj
    have hsnot : s ≠ sec_no := by
      intro he
      have := hnot v
      rw [Function.update_same, he] at this
      exact this rfl
    rw [hD' s hsnot j]
    refine hfresh s hs hsnot (fun k hk => ?_) j hj
    have := hnot k
    rw [Function.update_noteq hk] at this
    exact this

/-- Effect of one `_disk_read` on a coherent cache: the state stays
coherent relative to the same logical disk, and the bytes returned are
the logical contents of the requested range. -/
theorem _disk_read_inv (D : Nat → Nat → Nat) (st : CacheState) (sec_no : Nat)
    (start len : Nat) (hInv : CacheInv D st) (hsec : sec_no ≠ SENTINEL)
    (hlen : start + len ≤ 512) :
    CacheInv D (_disk_read st sec_no start len).2 ∧
      (_disk_read st sec_no start len).1 =
        (List.range len).map fun j => D sec_no (start + j) := by
  rcases hscan : scanHit st sec_no with _ | i
  · have htot := readClaimLoop_total 65 st sec_no
      (lt_of_le_of_lt (accessCount_le st) (by omega))
    rcases hrl : readClaimLoop 65 st sec_no with _ | ⟨st', v⟩
    · rw [hrl] at htot; simp at htot
    · obtain ⟨hInv', hsec', halloc, hbuf, hdisk⟩ :=
        readClaimLoop_inv D sec_no hsec 65 st st' v hInv
          (fun i => scanHit_none st sec_no hscan i) hrl
      constructor
      · simp only [_disk_read, hscan, hrl]
        exact hInv'
      · simp only [_disk_read, hscan, hrl]
        rw [hbuf]
        unfold memcpyOut
        refine List.map_congr_left (fun j hj => ?_)
        rw [List.mem_range] at hj
        exact hdisk (start + j) (by omega)
  · obtain ⟨hsec_i, _⟩ := scanHit_some st sec_no i hscan
    have halloc : (st.BClist i).alloc = true := by
      by_contra h
      rw [Bool.not_eq_true] at h
      have := hInv.unalloc_sector i h
      rw [hsec_i] at this
      exact hsec this
    constructor
    · simp only [_disk_read, hscan]
      refine CacheInv_congr D st _ rfl ?_ ?_ ?_ ?_ hInv <;>
        (intro k; dsimp only; rcases eq_or_ne k i with rfl | hne) <;>
        simp [Function.update_apply, *]
    · simp only [_disk_read, hscan]
      show memcpyOut ((Function.update st.BClist i
          { st.BClist i with access := true } i).buffer) start len = _
      rw [Function.update_same]
      unfold memcpyOut
      refine List.map_congr_left (fun j hj => ?_)
      rw [List.mem_range] at hj
      show (st.BClist i).buffer (start + j) = D sec_no (start + j)
      rw [← hsec_i]
      exact hInv.coherent i halloc (by rw [hsec_i]; exact hsec) (start + j) (by omega)

/-- Effect of one `_disk_write` on a coherent cache: the state is
coherent relative to the logical disk with the written range overlaid. -/
theorem _disk_write_inv (D : Nat → Nat → Nat) (st : CacheState) (sec_no : Nat)
    (src : Nat → Nat) (start len : Nat) (hInv : CacheInv D st)
    (hsec : sec_no ≠ SENTINEL) (hlen : start + len ≤ 512) :
    CacheInv (applySpec D (CacheOp.wr sec_no start len src))
      (_disk_write st sec_no src start len) := by
  rcases hscan : scanHit st sec_no with _ | i
  · have htot := writeClaimLoop_total 65 st sec_no
      (lt_of_le_of_lt (accessCount_le st) (by omega))
    rcases hrl : writeClaimLoop 65 st sec_no with _ | ⟨st', v⟩
    · rw [hrl] at htot; simp at htot
    · have hp := writeClaimLoop_pre D sec_no hsec 65 st st' v hInv
        (fun i => scanHit_none st sec_no hscan i) hrl
      simp only [_disk_write, hscan, hrl]
      have := CacheInv_write_label D sec_no src start len st' v
        ((st'.BClist v).buffer) ((st'.BClist v).dirty) st'.next_BC_to_evict
        hsec hlen hp.pvdirty
        (fun j hj => by rw [hp.pvbuf]; exact hp.pvdisk j hj)
        hp.pual hp.pdist hp.pcoh hp.pclean hp.pfresh hp.pnc
      exact this
  · obtain ⟨hsec_i, _⟩ := scanHit_some st sec_no i hscan
    have halloc : (st.BClist i).alloc = true := by
      by_contra h
      rw [Bool.not_eq_true] at h
      have := hInv.unalloc_sector i h
      rw [hsec_i] at this
      exact hsec this
    have hnc : ∀ k : Fin 64, k ≠ i → (st.BClist k).sector ≠ sec_no := by
      intro k hk
      by_cases hak : (st.BClist k).alloc = true
      · by_cases hsk : (st.BClist k).sector = SENTINEL
        · rw [hsk]
          exact fun he => hsec he.symm
        · rw [← hsec_i]
          exact hInv.distinct k i hk hak halloc hsk
      · rw [Bool.not_eq_true] at hak
        rw [hInv.unalloc_sector k hak]
        exact fun he => hsec he.symm
    simp only [_disk_write, hscan]
    have := CacheInv_write_label D sec_no src start len st i
      ((st.BClist i).buffer) true st.next_BC_to_evict
      hsec hlen rfl
      (fun j hj => by
        rw [← hsec_i]
        exact hInv.coherent i halloc (by rw [hsec_i]; exact hsec) j hj)
      (fun k hk => hInv.unalloc_sector k)
      (fun k l hkl _ _ hak hal hsk => hInv.distinct k l hkl hak hal hsk)
      (fun k _ hak hsk => hInv.coherent k hak hsk)
      (fun k _ hak hsk => hInv.clean k hak hsk)
      (fun s hs hsne hnot => hInv.fresh s hs (fun k => by
        rcases eq_or_ne k i with rfl | hk
        · rw [hsec_i]; exact fun he => hsne he.symm
        · exact hnot k hk))
      hnc
    exact this

/-! ### Operations on the sentinel sector preserve the invariant -/

/-- On a sentinel miss every slot is allocated (an unallocated slot
carries the sentinel sector id and would have been a scan hit), so the
read claim loop only skips or evicts; the invariant survives because
the claimed slot ends up holding the sentinel sector, which the
invariant does not track. -/
theorem readClaimLoop_sent_inv (D : Nat → Nat → Nat) :
    ∀ (fuel : Nat) (st st' : CacheState) (v : Fin 64), CacheInv D st →
      (∀ i : Fin 64, (st.BClist i).sector ≠ SENTINEL) →
      readClaimLoop fuel st SENTINEL = some (st', v) →
      CacheInv D st' := by
  intro fuel
  induction fuel with
  | zero => intro st st' v _ _ h; simp [readClaimLoop] at h
  | succ n ih =>
    intro st st' v hInv hmiss hloop
    by_cases h1 : (st.BClist st.next_BC_to_evict).alloc = false
    · exact absurd (hInv.unalloc_sector st.next_BC_to_evict h1)
        (hmiss st.next_BC_to_evict)
    · rw [Bool.not_eq_false] at h1
      by_cases h2 : (st.BClist st.next_BC_to_evict).access = false
      · rw [readClaimLoop_succ_victim n st SENTINEL h1 h2] at hloop
        injection hloop with h
        injection h with h3 h4
        subst h3; subst h4
        have ht := hmiss st.next_BC_to_evict
        refine ⟨?_, ?_, ?_, ?_, ?_⟩ <;> dsimp only
        · intro k hk
          rcases eq_or_ne k st.next_BC_to_evict with rfl | hne
          · rw [Function.update_same] at hk; cases hk
          · rw [Function.update_noteq hne] at hk ⊢
            exact hInv.unalloc_sector k hk
        · intro k l hkl hk hl hsent
          rcases eq_or_ne k st.next_BC_to_evict with rfl | hnk
          · rw [Function.update_same] at hsent
            exact absurd rfl hsent
          · rw [Function.update_noteq hnk] at hk hsent ⊢
            rcases eq_or_ne l st.next_BC_to_evict with rfl | hnl
            · rw [Function.update_same]
              exact hsent
            · rw [Function.update_noteq hnl] at hl ⊢
              exact hInv.distinct k l hkl hk hl hsent
        · intro k hk hsent j hj
          rcases eq_or_ne k st.next_BC_to_evict with rfl | hne
          · rw [Function.update_same] at hsent
            exact absurd rfl hsent
          · rw [Function.update_noteq hne] at hk hsent ⊢
            exact hInv.coherent k hk hsent j hj
        · intro k hk hsent hd j hj
          rcases eq_or_ne k st.next_BC_to_evict with rfl | hne
          · rw [Function.update_same] at hsent
            exact absurd rfl hsent
          · rw [Function.update_noteq hne] at hk hsent hd ⊢
            have hkc2 : (st.BClist k).sector ≠
                (st.BClist st.next_BC_to_evict).sector :=
              hInv.distinct k st.next_BC_to_evict hne hk h1 hsent
            by_cases hdd : (st.BClist st.next_BC_to_evict).dirty
            · rw [if_pos hdd]
              unfold rawDiskWrite
              rw [if_neg hkc2]
              exact hInv.clean k hk hsent hd j hj
            · rw [if_neg hdd]
              exact hInv.clean k hk hsent hd j hj
        · intro s hs hnot j hj
          by_cases hsc : s = (st.BClist st.next_BC_to_evict).sector
          · subst hsc
            by_cases hdd : (st.BClist st.next_BC_to_evict).dirty
            · rw [if_pos hdd]
              unfold rawDiskWrite
              rw [if_pos rfl]
              exact hInv.coherent st.next_BC_to_evict h1 ht j hj
            · rw [if_neg hdd]
              exact hInv.clean st.next_BC_to_evict h1 ht
                (Bool.not_eq_true _ ▸ hdd) j hj
          · by_cases hdd : (st.BClist st.next_BC_to_evict).dirty
            · rw [if_pos hdd]
              unfold rawDiskWrite
              rw [if_neg hsc]
              refine hInv.fresh s hs (fun i => ?_) j hj
              rcases eq_or_ne i st.next_BC_to_evict with rfl | hne
              · exact fun he => hsc he.symm
              · have := hnot i
                rw [Function.update_noteq hne] at this
                exact this
            · rw [if_neg hdd]
              refine hInv.fresh s hs (fun i => ?_) j hj
              rcases eq_or_ne i st.next_BC_to_evict with rfl | hne
              · exact fun he => hsc he.symm
              · have := hnot i
                rw [Function.update_noteq hne] at this
                exact this
      · rw [Bool.not_eq_false] at h2
        rw [readClaimLoop_succ_skip n st SENTINEL h1 h2] at hloop
        refine ih _ st' v ?_ ?_ hloop
        · refine CacheInv_congr D st _ rfl ?_ ?_ ?_ ?_ hInv <;>
            (intro k; dsimp only;
             rcases eq_or_ne k st.next_BC_to_evict with rfl | hne) <;>
            simp [Function.update_apply, *]
        · intro i
          dsimp only
          rcases eq_or_ne i st.next_BC_to_evict with rfl | hne
          · simpa [Function.update_same] using hmiss st.next_BC_to_evict
          · simpa [Function.update_noteq hne] using hmiss i

/-- The write claim loop on a sentinel miss: every slot other than the
claimed one keeps the invariant's per-slot clauses, and the raw device
stays current for every real sector resident in no other slot. -/
theorem writeClaimLoop_sent_pre (D : Nat → Nat → Nat) :
    ∀ (fuel : Nat) (st st' : CacheState) (v : Fin 64), CacheInv D st →
      (∀ i : Fin 64, (st.BClist i).sector ≠ SENTINEL) →
      writeClaimLoop fuel st SENTINEL = some (st', v) →
      (∀ k : Fin 64, k ≠ v → (st'.BClist k).alloc = false →
        (st'.BClist k).sector = SENTINEL) ∧
      (∀ k l : Fin 64, k ≠ l → k ≠ v → l ≠ v → (st'.BClist k).alloc = true →
        (st'.BClist l).alloc = true → (st'.BClist k).sector ≠ SENTINEL →
        (st'.BClist k).sector ≠ (st'.BClist l).sector) ∧
      (∀ k : Fin 64, k ≠ v → (st'.BClist k).alloc = true →
        (st'.BClist k).sector ≠ SENTINEL →
        ∀ j < 512, (st'.BClist k).buffer j = D (st'.BClist k).sector j) ∧
      (∀ k : Fin 64, k ≠ v → (st'.BClist k).alloc = true →
        (st'.BClist k).sector ≠ SENTINEL → (st'.BClist k).dirty = false →
        ∀ j < 512, st'.disk (st'.BClist k).sector j = D (st'.BClist k).sector j) ∧
      (∀ s, s ≠ SENTINEL → (∀ k : Fin 64, k ≠ v → (st'.BClist k).sector ≠ s) →
        ∀ j < 512, st'.disk s j = D s j) := by
  intro fuel
  induction fuel with
  | zero => intro st st' v _ _ h; simp [writeClaimLoop] at h
  | succ n ih =>
    intro st st' v hInv hmiss hloop
    by_cases h1 : (st.BClist st.next_BC_to_evict).alloc = false
    · exact absurd (hInv.unalloc_sector st.next_BC_to_evict h1)
        (hmiss st.next_BC_to_evict)
    · rw [Bool.not_eq_false] at h1
      by_cases h2 : (st.BClist st.next_BC_to_evict).access = false
      · rw [writeClaimLoop_succ_victim n st SENTINEL h1 h2] at hloop
        injection hloop with h
        injection h with h3 h4
        subst h3; subst h4
        have ht := hmiss st.next_BC_to_evict
        refine ⟨?_, ?_, ?_, ?_, ?_⟩ <;> dsimp only
        · intro k hk ha
          rw [Function.update_noteq hk] at ha ⊢
          exact hInv.unalloc_sector k ha
        · intro k l hkl hk hl hak hal hsent
          rw [Function.update_noteq hk] at hak hsent ⊢
          rw [Function.update_noteq hl] at hal ⊢
          exact hInv.distinct k l hkl hak hal hsent
        · intro k hk hak hsent j hj
          rw [Function.update_noteq hk] at hak hsent ⊢
          exact hInv.coherent k hak hsent j hj
        · intro k hk hak hsent hd j hj
          rw [Function.update_noteq hk] at hak hsent hd ⊢
          have hkc2 : (st.BClist k).sector ≠
              (st.BClist st.next_BC_to_evict).sector :=
            hInv.distinct k st.next_BC_to_evict hk hak h1 hsent
          by_cases hdd : (st.BClist st.next_BC_to_evict).dirty
          · rw [if_pos hdd]
            unfold rawDiskWrite
            rw [if_neg hkc2]
            exact hInv.clean k hak hsent hd j hj
          · rw [if_neg hdd]
            exact hInv.clean k hak hsent hd j hj
        · intro s hs hnot j hj
          by_cases hsc : s = (st.BClist st.next_BC_to_evict).sector
          · subst hsc
            by_cases hdd : (st.BClist st.next_BC_to_evict).dirty
            · rw [if_pos hdd]
              unfold rawDiskWrite
              rw [if_pos rfl]
              exact hInv.coherent st.next_BC_to_evict h1 ht j hj
            · rw [if_neg hdd]
              exact hInv.clean st.next_BC_to_evict h1 ht
                (Bool.not_eq_true _ ▸ hdd) j hj
          · by_cases hdd : (st.BClist st.next_BC_to_evict).dirty
            · rw [if_pos hdd]
              unfold rawDiskWrite
              rw [if_neg hsc]
              refine hInv.fresh s hs (fun i => ?_) j hj
              rcases eq_or_ne i st.next_BC_to_evict with rfl | hne
              · exact fun he => hsc he.symm
              · have := hnot i hne
                rw [Function.update_noteq hne] at this
                exact this
            · rw [if_neg hdd]
              refine hInv.fresh s hs (fun i => ?_) j hj
              rcases eq_or_ne i st.next_BC_to_evict with rfl | hne
              · exact fun he => hsc he.symm
              · have := hnot i hne
                rw [Function.update_noteq hne] at this
                exact this
      · rw [Bool.not_eq_false] at h2
        rw [writeClaimLoop_succ_skip n st SENTINEL h1 h2] at hloop
        refine ih _ st' v ?_ ?_ hloop
        · refine CacheInv_congr D st _ rfl ?_ ?_ ?_ ?_ hInv <;>
            (intro k; dsimp only;
             rcases eq_or_ne k st.next_BC_to_evict with rfl | hne) <;>
            simp [Function.update_apply, *]
        · intro i
          dsimp only
          rcases eq_or_ne i st.next_BC_to_evict with rfl | hne
          · simpa [Function.update_same] using hmiss st.next_BC_to_evict
          · simpa [Function.update_noteq hne] using hmiss i

/-- A `_disk_read` of the sentinel sector preserves the invariant: on a
hit only an `access` flag changes; on a miss the claimed slot holds the
sentinel sector, which the invariant does not track. -/
theorem _disk_read_sent_inv (D : Nat → Nat → Nat) (st : CacheState)
    (start len : Nat) (hInv : CacheInv D st) :
    CacheInv D (_disk_read st SENTINEL start len).2 := by
  rcases hscan : scanHit st SENTINEL with _ | i
  · have htot := readClaimLoop_total 65 st SENTINEL
      (lt_of_le_of_lt (accessCount_le st) (by omega))
    rcases hrl : readClaimLoop 65 st SENTINEL with _ | ⟨st', v⟩
    · rw [hrl] at htot; simp at htot
    · simp only [_disk_read, hscan, hrl]
      exact readClaimLoop_sent_inv D 65 st st' v hInv
        (fun i => scanHit_none st SENTINEL hscan i) hrl
  · simp only [_disk_read, hscan]
    refine CacheInv_congr D st _ rfl ?_ ?_ ?_ ?_ hInv <;>
      (intro k; dsimp only; rcases eq_or_ne k i with rfl | hne) <;>
      simp [Function.update_apply, *]

/-- A `_disk_write` to the sentinel sector preserves the invariant: the
written slot ends up carrying the sentinel sector id, so every clause
tracking real sectors ignores it, and the raw device is only (possibly)
changed at the evicted victim's old sector, which write-back keeps
current. -/
theorem _disk_write_sent_inv (D : Nat → Nat → Nat) (st : CacheState)
    (src : Nat → Nat) (start len : Nat) (hInv : CacheInv D st) :
    CacheInv D (_disk_write st SENTINEL src start len) := by
  rcases hscan : scanHit st SENTINEL with _ | i
  · have htot := writeClaimLoop_total 65 st SENTINEL
      (lt_of_le_of_lt (accessCount_le st) (by omega))
    rcases hrl : writeClaimLoop 65 st SENTINEL with _ | ⟨st', v⟩
    · rw [hrl] at htot; simp at htot
    · obtain ⟨s1, s2, s3, s4, s5⟩ := writeClaimLoop_sent_pre D 65 st st' v hInv
        (fun i => scanHit_none st SENTINEL hscan i) hrl
      simp only [_disk_write, hscan, hrl]
      refine ⟨?_, ?_, ?_, ?_, ?_⟩ <;> dsimp only
      · intro k hk
        rcases eq_or_ne k v with rfl | hne
        · rw [Function.update_same] at hk; cases hk
        · rw [Function.update_noteq hne] at hk ⊢
          exact s1 k hne hk
      · intro k l hkl hk hl hsent
        rcases eq_or_ne k v with rfl | hnk
        · rw [Function.update_same] at hsent
          exact absurd rfl hsent
        · rw [Function.update_noteq hnk] at hk hsent ⊢
          rcases eq_or_ne l v with rfl | hnl
          · rw [Function.update_same]
            exact hsent
          · rw [Function.update_noteq hnl] at hl ⊢
            exact s2 k l hkl hnk hnl hk hl hsent
      · intro k hk hsent j hj
        rcases eq_or_ne k v with rfl | hne
        · rw [Function.update_same] at hsent
          exact absurd rfl hsent
        · rw [Function.update_noteq hne] at hk hsent ⊢
          exact s3 k hne hk hsent j hj
      · intro k hk hsent hd j hj
        rcases eq_or_ne k v with rfl | hne
        · rw [Function.update_same] at hsent
          exact absurd rfl hsent
        · rw [Function.update_noteq hne] at hk hsent hd ⊢
          exact s4 k hne hk hsent hd j hj
      · intro s hs hnot j hj
        refine s5 s hs (fun k hk => ?_) j hj
        have := hnot k
        rw [Function.update_noteq hk] at this
        exact this
  · obtain ⟨hsec_i, _⟩ := scanHit_some st SENTINEL i hscan
    simp only [_disk_write, hscan]
    refine ⟨?_, ?_, ?_, ?_, ?_⟩ <;> dsimp only
    · intro k hk
      rcases eq_or_ne k i with rfl | hne
      · rw [Function.update_same] at hk; cases hk
      · rw [Function.update_noteq hne] at hk ⊢
        exact hInv.unalloc_sector k hk
    · intro k l hkl hk hl hsent
      rcases eq_or_ne k i with rfl | hnk
      · rw [Function.update_same] at hsent
        exact absurd rfl hsent
      · rw [Function.update_noteq hnk] at hk hsent ⊢
        rcases eq_or_ne l i with rfl | hnl
        · rw [Function.update_same]
          exact hsent
        · rw [Function.update_noteq hnl] at hl ⊢
          exact hInv.distinct k l hkl hk hl hsent
    · intro k hk hsent j hj
      rcases eq_or_ne k i with rfl | hne
      · rw [Function.update_same] at hsent
        exact absurd rfl hsent
      · rw [Function.update_noteq hne] at hk hsent ⊢
        exact hInv.coherent k hk hsent j hj
    · intro k hk hsent hd j hj
      rcases eq_or_ne k i with rfl | hne
      · rw [Function.update_same] at hsent
        exact absurd rfl hsent
      · rw [Function.update_noteq hne] at hk hsent hd ⊢
        exact hInv.clean k hk hsent hd j hj
    · intro s hs hnot j hj
      refine hInv.fresh s hs (fun k => ?_) j hj
      rcases eq_or_ne k i with rfl | hne
      · rw [hsec_i]
        exact fun he => hs he.symm
      · have := hnot k
        rw [Function.update_noteq hne] at this
        exact this

/-- Coherence holds after any single-threaded sequence of in-bounds
cache operations; the requested sectors are unrestricted (operations on
the sentinel sector neither touch nor perturb the tracked state). -/
theorem runOps_inv : ∀ (ops : List CacheOp) (st : CacheState)
    (D : Nat → Nat → Nat), CacheInv D st → (∀ op ∈ ops, wfOp op) →
    CacheInv (specDisk D ops) (runOps st ops) := by
  intro ops
  induction ops with
  | nil => intro st D h _; exact h
  | cons op rest ih =>
    intro st D h hwf
    have hop := hwf op (List.mem_cons_self _ _)
    have hrest : ∀ o ∈ rest, wfOp o := fun o ho => hwf o (List.mem_cons_of_mem _ ho)
    show CacheInv (specDisk (applySpec D op) rest) (runOps (runOp st op) rest)
    apply ih _ _ _ hrest
    cases op with
    | rd sec start len =>
      by_cases hsec : sec = SENTINEL
      · subst hsec
        exact _disk_read_sent_inv D st start len h
      · exact (_disk_read_inv D st sec start len h hsec hop).1
    | wr sec start len src =>
      by_cases hsec : sec = SENTINEL
      · subst hsec
        refine CacheInv_spec_congr D _ _ ?_ (_disk_write_sent_inv D st src start len h)
        intro s hs j
        show (if s = SENTINEL ∧ start ≤ j ∧ j < start + len then src (j - start)
          else D s j) = D s j
        rw [if_neg (fun hc => hs hc.1)]
      · exact _disk_write_inv D st sec src start len h hsec hop

/-- C1 (amended: the final read's sector must differ from the
slot-initialisation sentinel `0xFFFFFFFF = (disk_sector_t)-1`; the
original claim's "any sector" fails exactly there, see
`C1_no_lost_writes_counterexample`): after any single-threaded sequence
of `_disk_read`/`_disk_write` operations whose offsets stay within the
sector — the sequence itself may touch any sectors, the sentinel
included — a subsequent `_disk_read` of any non-sentinel sector
returns, at every byte position, the most recently written value for
that byte, or the raw device's original contents if that byte was never
written: no writes are lost across evictions. -/
theorem C1_no_lost_writes (bufs : Fin 64 → Nat → Nat)
    (disk0 : Nat → Nat → Nat) (ops : List CacheOp) (sec_no start len : Nat)
    (hops : ∀ op ∈ ops, wfOp op) (hsec : sec_no ≠ SENTINEL)
    (hlen : start + len ≤ SECTOR_SIZE) :
    (_disk_read (runOps (inode_init bufs disk0) ops) sec_no start len).1 =
      (List.range len).map fun j => specDisk disk0 ops sec_no (start + j) :=
  (_disk_read_inv (specDisk disk0 ops) (runOps (inode_init bufs disk0) ops)
    sec_no start len
    (runOps_inv ops (inode_init bufs disk0) disk0 (CacheInv_init bufs disk0) hops)
    hsec hlen).2

/-- Witness for C1: a write to the sentinel sector followed by a write
of byte 7 to sector 3; a read of sector 3 returns the specified byte. -/
theorem C1_no_lost_writes_witness :
    (_disk_read (runOps (inode_init (fun _ _ => 0) (fun _ _ => 0))
        [CacheOp.wr 4294967295 0 1 fun _ => 9, CacheOp.wr 3 0 1 fun _ => 7])
        3 0 1).1 =
      (List.range 1).map
        (fun j => specDisk (fun _ _ => 0)
          [CacheOp.wr 4294967295 0 1 fun _ => 9, CacheOp.wr 3 0 1 fun _ => 7]
          3 (0 + j)) :=
  C1_no_lost_writes (fun _ _ => 0) (fun _ _ => 0)
    [CacheOp.wr 4294967295 0 1 fun _ => 9, CacheOp.wr 3 0 1 fun _ => 7] 3 0 1
    (by
      intro op hop
      rcases List.mem_cons.mp hop with rfl | hop
      · show 0 + 1 ≤ SECTOR_SIZE
        decide
      · rw [List.mem_singleton] at hop
        subst hop
        show 0 + 1 ≤ SECTOR_SIZE
        decide)
    (by decide) (by decide)

/-- Counterexample to C1 as literally stated ("a readThrough of any
sector"): with the empty operation sequence — in which no byte of any
sector was ever written — a read of sector `4294967295 = 0xFFFFFFFF`
hits the unallocated slot 0, whose sector field was initialised to
`(disk_sector_t)-1`, and returns the slot's uninitialised `malloc`
buffer contents (here byte value 1) instead of the raw device's
original contents (here byte value 0). -/
theorem C1_no_lost_writes_counterexample :
    (_disk_read (runOps (inode_init (fun _ _ => 1) (fun _ _ => 0)) [])
        4294967295 0 1).1 = [1] ∧
      ((fun (_ _ : Nat) => (0 : Nat)) 4294967295 0 = 0) ∧ (1 : Nat) ≠ 0 :=
  ⟨by decide, rfl, by decide⟩

/-! ### Residency invariant (C2), with no restriction on requested sectors -/

/-- Structural invariant of the slot pool under arbitrary single-threaded
operations: unallocated slots still carry the sentinel sector id; the
allocated slots form a prefix `[0, m)` of the pool with the eviction
cursor at most `m`; allocated slots have pairwise distinct sectors. -/
structure GInv (st : CacheState) : Prop where
  sent : ∀ i : Fin 64, (st.BClist i).alloc = false →
    (st.BClist i).sector = SENTINEL
  shape : ∃ m, m ≤ 64 ∧
    (∀ i : Fin 64, (st.BClist i).alloc = true ↔ i.val < m) ∧
    st.next_BC_to_evict.val ≤ m
  dist : ∀ i j : Fin 64, i ≠ j → (st.BClist i).alloc = true →
    (st.BClist j).alloc = true → (st.BClist i).sector ≠ (st.BClist j).sector

theorem GInv_init (bufs : Fin 64 → Nat → Nat) (disk0 : Nat → Nat → Nat) :
    GInv (inode_init bufs disk0) := by
  refine ⟨fun i _ => rfl, ⟨0, by omega, fun i => ?_, Nat.le_refl 0⟩, fun i j _ hi => ?_⟩
  · simp [inode_init]
  · simp [inode_init] at hi

/-- `GInv` only looks at sectors, alloc flags and the cursor. -/
theorem GInv_congr (st st' : CacheState)
    (hs : ∀ k, (st'.BClist k).sector = (st.BClist k).sector)
    (ha : ∀ k, (st'.BClist k).alloc = (st.BClist k).alloc)
    (hc : st'.next_BC_to_evict = st.next_BC_to_evict)
    (h : GInv st) : GInv st' := by
  refine ⟨?_, ?_, ?_⟩
  · intro i hi
    rw [hs]
    exact h.sent i (by rw [← ha i]; exact hi)
  · obtain ⟨m, hm, hiff, hcur⟩ := h.shape
    exact ⟨m, hm, fun i => by rw [ha i]; exact hiff i, by rw [hc]; exact hcur⟩
  · intro i j hij hi hj
    rw [hs, hs]
    exact h.dist i j hij (by rw [← ha i]; exact hi) (by rw [← ha j]; exact hj)

/-- A skip iteration (clear the cursor slot's access flag, advance the
cursor) preserves the residency invariant. -/
theorem GInv_skip (st : CacheState) (h : GInv st)
    (h1 : (st.BClist st.next_BC_to_evict).alloc = true) :
    GInv { st with
             next_BC_to_evict := bumpCursor st.next_BC_to_evict
             BClist := Function.update st.BClist st.next_BC_to_evict
               { st.BClist st.next_BC_to_evict with access := false } } := by
  obtain ⟨m, hm, hiff, hcur⟩ := h.shape
  have hvm : st.next_BC_to_evict.val < m := (hiff st.next_BC_to_evict).mp h1
  refine ⟨?_, ⟨m, hm, ?_, ?_⟩, ?_⟩ <;> dsimp only
  · intro k hk
    rcases eq_or_ne k st.next_BC_to_evict with rfl | hne
    · simp only [Function.update_same] at hk
      rw [h1] at hk; cases hk
    · rw [Function.update_noteq hne] at hk ⊢
      exact h.sent k hk
  · intro k
    rcases eq_or_ne k st.next_BC_to_evict with rfl | hne
    · simp only [Function.update_same]
      exact hiff st.next_BC_to_evict
    · rw [Function.update_noteq hne]
      exact hiff k
  · show (bumpCursor st.next_BC_to_evict).val ≤ m
    simp only [bumpCursor]
    have := Nat.mod_le (st.next_BC_to_evict.val + 1) 64
    omega
  · intro k l hkl hk hl
    rcases eq_or_ne k st.next_BC_to_evict with rfl | hnk
    · simp only [Function.update_same] at hk ⊢
      rcases eq_or_ne l st.next_BC_to_evict with rfl | hnl
      · exact absurd rfl hkl
      · rw [Function.update_noteq hnl] at hl ⊢
        exact h.dist _ l hkl hk hl
    · rw [Function.update_noteq hnk] at hk ⊢
      rcases eq_or_ne l st.next_BC_to_evict with rfl | hnl
      · simp only [Function.update_same] at hl ⊢
        exact h.dist k _ hkl hk hl
      · rw [Function.update_noteq hnl] at hl ⊢
        exact h.dist k l hkl hk hl

/-- The read claim loop preserves the residency invariant when the
requested sector misses (and needs no restriction on the sector). -/
theorem readClaimLoop_G (sec_no : Nat) :
    ∀ (fuel : Nat) (st st' : CacheState) (v : Fin 64), GInv st →
      (∀ i : Fin 64, (st.BClist i).sector ≠ sec_no) →
      readClaimLoop fuel st sec_no = some (st', v) →
      GInv st' := by
  intro fuel
  induction fuel with
  | zero => intro st st' v _ _ h; simp [readClaimLoop] at h
  | succ n ih =>
    intro st st' v hG hmiss hloop
    obtain ⟨m, hm, hiff, hcur⟩ := hG.shape
    by_cases h1 : (st.BClist st.next_BC_to_evict).alloc = false
    · rw [readClaimLoop_succ_unalloc n st sec_no h1] at hloop
      injection hloop with h
      injection h with h2 h3
      subst h2; subst h3
      have hvm : st.next_BC_to_evict.val = m := by
        have h5 := (hiff st.next_BC_to_evict)
        rw [h1] at h5
        simp only [Bool.false_eq_true, false_iff, Nat.not_lt] at h5
        omega
      refine ⟨?_, ⟨m + 1, ?_, ?_, ?_⟩, ?_⟩ <;> dsimp only
      · intro k hk
        rcases eq_or_ne k st.next_BC_to_evict with rfl | hne
        · rw [Function.update_same] at hk; cases hk
        · rw [Function.update_noteq hne] at hk ⊢
          exact hG.sent k hk
      · omega
      · intro k
        rcases eq_or_ne k st.next_BC_to_evict with rfl | hne
        · rw [Function.update_same]
          simp only [true_iff]
          omega
        · rw [Function.update_noteq hne]
          rw [hiff k]
          have : k.val ≠ st.next_BC_to_evict.val := fun he => hne (Fin.ext he)
          omega
      · show (bumpCursor st.next_BC_to_evict).val ≤ m + 1
        simp only [bumpCursor]
        have := Nat.mod_le (st.next_BC_to_evict.val + 1) 64
        omega
      · intro k l hkl hk hl
        rcases eq_or_ne k st.next_BC_to_evict with rfl | hnk
        · rw [Function.update_same] at hk ⊢
          rcases eq_or_ne l st.next_BC_to_evict with rfl | hnl
          · exact absurd rfl hkl
          · rw [Function.update_noteq hnl] at hl ⊢
            exact fun he => hmiss l he.symm
        · rw [Function.update_noteq hnk] at hk ⊢
          rcases eq_or_ne l st.next_BC_to_evict with rfl | hnl
          · rw [Function.update_same] at hl ⊢
            exact hmiss k
          · rw [Function.update_noteq hnl] at hl ⊢
            exact hG.dist k l hkl hk hl
    · rw [Bool.not_eq_false] at h1
      by_cases h2 : (st.BClist st.next_BC_to_evict).access = false
      · rw [readClaimLoop_succ_victim n st sec_no h1 h2] at hloop
        injection hloop with h
        injection h with h3 h4
        subst h3; subst h4
        have hvm : st.next_BC_to_evict.val < m := (hiff st.next_BC_to_evict).mp h1
        refine ⟨?_, ⟨m, hm, ?_, ?_⟩, ?_⟩ <;> dsimp only
        · intro k hk
          rcases eq_or_ne k st.next_BC_to_evict with rfl | hne
          · rw [Function.update_same] at hk; cases hk
          · rw [Function.update_noteq hne] at hk ⊢
            exact hG.sent k hk
        · intro k
          rcases eq_or_ne k st.next_BC_to_evict with rfl | hne
          · rw [Function.update_same]
            simp only [true_iff]
            omega
          · rw [Function.update_noteq hne]
            exact hiff k
        · show (bumpCursor st.next_BC_to_evict).val ≤ m
          simp only [bumpCursor]
          have := Nat.mod_le (st.next_BC_to_evict.val + 1) 64
          omega
        · intro k l hkl hk hl
          rcases eq_or_ne k st.next_BC_to_evict with rfl | hnk
          · rw [Function.update_same] at hk ⊢
            rcases eq_or_ne l st.next_BC_to_evict with rfl | hnl
            · exact absurd rfl hkl
            · rw [Function.update_noteq hnl] at hl ⊢
              exact fun he => hmiss l he.symm
          · rw [Function.update_noteq hnk] at hk ⊢
            rcases eq_or_ne l st.next_BC_to_evict with rfl | hnl
            · rw [Function.update_same] at hl ⊢
              exact hmiss k
            · rw [Function.update_noteq hnl] at hl ⊢
              exact hG.dist k l hkl hk hl
      · rw [Bool.not_eq_false] at h2
        rw [readClaimLoop_succ_skip n st sec_no h1 h2] at hloop
        refine ih _ st' v (GInv_skip st hG h1) ?_ hloop
        intro i
        dsimp only
        rcases eq_or_ne i st.next_BC_to_evict with rfl | hne
        · simpa [Function.update_same] using hmiss st.next_BC_to_evict
        · simpa [Function.update_noteq hne] using hmiss i

/-- The write claim loop changes no slot's `sector`/`alloc` fields; it
claims the slot just behind the final cursor, and when that slot is
unallocated it is exactly the boundary of the allocated prefix. -/
theorem writeClaimLoop_G (sec_no : Nat) :
    ∀ (fuel : Nat) (st st' : CacheState) (v : Fin 64), GInv st →
      writeClaimLoop fuel st sec_no = some (st', v) →
      (∀ k : Fin 64, (st'.BClist k).sector = (st.BClist k).sector) ∧
      (∀ k : Fin 64, (st'.BClist k).alloc = (st.BClist k).alloc) ∧
      ∃ m, m ≤ 64 ∧ (∀ i : Fin 64, (st'.BClist i).alloc = true ↔ i.val < m) ∧
        (((st'.BClist v).alloc = true ∧ st'.next_BC_to_evict.val ≤ m) ∨
         ((st'.BClist v).alloc = false ∧ v.val = m ∧
           st'.next_BC_to_evict = bumpCursor v)) := by
  intro fuel
  induction fuel with
  | zero => intro st st' v _ h; simp [writeClaimLoop] at h
  | succ n ih =>
    intro st st' v hG hloop
    obtain ⟨m, hm, hiff, hcur⟩ := hG.shape
    by_cases h1 : (st.BClist st.next_BC_to_evict).alloc = false
    · rw [writeClaimLoop_succ_unalloc n st sec_no h1] at hloop
      injection hloop with h
      injection h with h2 h3
      subst h2; subst h3
      have hvm : st.next_BC_to_evict.val = m := by
        have h5 := hiff st.next_BC_to_evict
        rw [h1] at h5
        simp only [Bool.false_eq_true, false_iff, Nat.not_lt] at h5
        omega
      have hsame : ∀ k : Fin 64,
          ((Function.update st.BClist st.next_BC_to_evict
            { st.BClist st.next_BC_to_evict with
                buffer := st.disk sec_no, dirty := true }) k).sector =
            (st.BClist k).sector ∧
          ((Function.update st.BClist st.next_BC_to_evict
            { st.BClist st.next_BC_to_evict with
                buffer := st.disk sec_no, dirty := true }) k).alloc =
            (st.BClist k).alloc := by
        intro k
        rcases eq_or_ne k st.next_BC_to_evict with rfl | hne
        · rw [Function.update_same]
          exact ⟨rfl, rfl⟩
        · rw [Function.update_noteq hne]
          exact ⟨rfl, rfl⟩
      refine ⟨fun k => (hsame k).1, fun k => (hsame k).2, m, hm, ?_, Or.inr ⟨?_, ?_, rfl⟩⟩
      · intro k
        rw [(hsame k).2]
        exact hiff k
      · rw [(hsame st.next_BC_to_evict).2]
        exact h1
      · exact hvm
    · rw [Bool.not_eq_false] at h1
      by_cases h2 : (st.BClist st.next_BC_to_evict).access = false
      · rw [writeClaimLoop_succ_victim n st sec_no h1 h2] at hloop
        injection hloop with h
        injection h with h3 h4
        subst h3; subst h4
        have hvm : st.next_BC_to_evict.val < m := (hiff st.next_BC_to_evict).mp h1
        have hsame : ∀ k : Fin 64,
            ((Function.update st.BClist st.next_BC_to_evict
              { st.BClist st.next_BC_to_evict with
                  buffer := (if (st.BClist st.next_BC_to_evict).dirty then
                               rawDiskWrite st.disk
                                 (st.BClist st.next_BC_to_evict).sector
                                 (st.BClist st.next_BC_to_evict).buffer
                             else st.disk) sec_no
                  dirty := true }) k).sector = (st.BClist k).sector ∧
            ((Function.update st.BClist st.next_BC_to_evict
              { st.BClist st.next_BC_to_evict with
                  buffer := (if (st.BClist st.next_BC_to_evict).dirty then
                               rawDiskWrite st.disk
                                 (st.BClist st.next_BC_to_evict).sector
                                 (st.BClist st.next_BC_to_evict).buffer
                             else st.disk) sec_no
                  dirty := true }) k).alloc = (st.BClist k).alloc := by
          intro k
          rcases eq_or_ne k st.next_BC_to_evict with rfl | hne
          · rw [Function.update_same]
            exact ⟨rfl, rfl⟩
          · rw [Function.update_noteq hne]
            exact ⟨rfl, rfl⟩
        refine ⟨fun k => (hsame k).1, fun k => (hsame k).2, m, hm, ?_, Or.inl ⟨?_, ?_⟩⟩
        · intro k
          rw [(hsame k).2]
          exact hiff k
        · rw [(hsame st.next_BC_to_evict).2]
          exact h1
        · show (bumpCursor st.next_BC_to_evict).val ≤ m
          simp only [bumpCursor]
          have := Nat.mod_le (st.next_BC_to_evict.val + 1) 64
          omega
      · rw [Bool.not_eq_false] at h2
        rw [writeClaimLoop_succ_skip n st sec_no h1 h2] at hloop
        obtain ⟨hs2, ha2, hrest⟩ := ih _ st' v (GInv_skip st hG h1) hloop
        have hsame : ∀ k : Fin 64,
            ((Function.update st.BClist st.next_BC_to_evict
              { st.BClist st.next_BC_to_evict with access := false }) k).sector =
              (st.BClist k).sector ∧
            ((Function.update st.BClist st.next_BC_to_evict
              { st.BClist st.next_BC_to_evict with access := false }) k).alloc =
              (st.BClist k).alloc := by
          intro k
          rcases eq_or_ne k st.next_BC_to_evict with rfl | hne
          · rw [Function.update_same]
            exact ⟨rfl, rfl⟩
          · rw [Function.update_noteq hne]
            exact ⟨rfl, rfl⟩
        exact ⟨fun k => (hs2 k).trans (hsame k).1,
          fun k => (ha2 k).trans (hsame k).2, hrest⟩

/-- Every single cache operation preserves the residency invariant,
with no restriction on the requested sector or range. -/
theorem runOp_G (st : CacheState) (op : CacheOp) (hG : GInv st) :
    GInv (runOp st op) := by
  cases op with
  | rd sec_no start len =>
    show GInv (_disk_read st sec_no start len).2
    rcases hscan : scanHit st sec_no with _ | i
    · have htot := readClaimLoop_total 65 st sec_no
        (lt_of_le_of_lt (accessCount_le st) (by omega))
      rcases hrl : readClaimLoop 65 st sec_no with _ | ⟨st', v⟩
      · rw [hrl] at htot; simp at htot
      · simp only [_disk_read, hscan, hrl]
        exact readClaimLoop_G sec_no 65 st st' v hG
          (fun k => scanHit_none st sec_no hscan k) hrl
    · simp only [_disk_read, hscan]
      refine GInv_congr st _ ?_ ?_ rfl hG <;>
        (intro k; dsimp only; rcases eq_or_ne k i with rfl | hne) <;>
        simp [Function.update_apply, *]
  | wr sec_no start len src =>
    show GInv (_disk_write st sec_no src start len)
    rcases hscan : scanHit st sec_no with _ | i
    · have hmiss : ∀ k : Fin 64, (st.BClist k).sector ≠ sec_no :=
        fun k => scanHit_none st sec_no hscan k
      have htot := writeClaimLoop_total 65 st sec_no
        (lt_of_le_of_lt (accessCount_le st) (by omega))
      rcases hrl : writeClaimLoop 65 st sec_no with _ | ⟨st'', v⟩
      · rw [hrl] at htot; simp at htot
      · obtain ⟨hsecs, hallocs, m, hm, hbnd, hcase⟩ :=
          writeClaimLoop_G sec_no 65 st st'' v hG hrl
        simp only [_disk_write, hscan, hrl]
        refine ⟨?_, ?_, ?_⟩ <;> dsimp only
        · intro k hk
          rcases eq_or_ne k v with rfl | hne
          · rw [Function.update_same] at hk; cases hk
          · rw [Function.update_noteq hne] at hk ⊢
            rw [hsecs k]
            exact hG.sent k (by rw [← hallocs k]; exact hk)
        · rcases hcase with ⟨hav, hcurm⟩ | ⟨hav, hveq, hcureq⟩
          · refine ⟨m, hm, ?_, hcurm⟩
            intro k
            rcases eq_or_ne k v with rfl | hne
            · rw [Function.update_same]
              simp only [true_iff]
              exact (hbnd k).mp hav
            · rw [Function.update_noteq hne]
              exact hbnd k
          · refine ⟨v.val + 1, by have := v.isLt; omega, ?_, ?_⟩
            · intro k
              rcases eq_or_ne k v with rfl | hne
              · rw [Function.update_same]
                simp only [true_iff]
                omega
              · rw [Function.update_noteq hne]
                rw [hbnd k, hveq]
                have : k.val ≠ v.val := fun he => hne (Fin.ext he)
                omega
            · rw [hcureq]
              show (bumpCursor v).val ≤ v.val + 1
              simp only [bumpCursor]
              have := Nat.mod_le (v.val + 1) 64
              omega
        · intro k l hkl hk hl
          rcases eq_or_ne k v with rfl | hnk
          · rw [Function.update_same] at hk ⊢
            rcases eq_or_ne l k with rfl | hnl
            · exact absurd rfl hkl
            · rw [Function.update_noteq hnl] at hl ⊢
              rw [hsecs l]
              exact fun he => hmiss l he.symm
          · rw [Function.update_noteq hnk] at hk ⊢
            rcases eq_or_ne l v with rfl | hnl
            · rw [Function.update_same] at hl ⊢
              rw [hsecs k]
              exact hmiss k
            · rw [Function.update_noteq hnl] at hl ⊢
              rw [hsecs k, hsecs l]
              exact hG.dist k l hkl (by rw [← hallocs k]; exact hk)
                (by rw [← hallocs l]; exact hl)
    · obtain ⟨hsec_i, hmin⟩ := scanHit_some st sec_no i hscan
      simp only [_disk_write, hscan]
      by_cases hai : (st.BClist i).alloc = true
      · refine GInv_congr st _ ?_ ?_ rfl hG
        · intro k
          dsimp only
          rcases eq_or_ne k i with rfl | hne
          · rw [Function.update_same]
            exact hsec_i.symm
          · rw [Function.update_noteq hne]
        · intro k
          dsimp only
          rcases eq_or_ne k i with rfl | hne
          · rw [Function.update_same]
            exact hai.symm
          · rw [Function.update_noteq hne]
      · rw [Bool.not_eq_true] at hai
        have hsentinel := hG.sent i hai
        have hsecS : sec_no = SENTINEL := by rw [← hsec_i, hsentinel]
        obtain ⟨m, hm, hiff, hcur⟩ := hG.shape
        have him : ¬ i.val < m := fun hlt => by
          rw [(hiff i).mpr hlt] at hai; cases hai
        have hieq : i.val = m := by
          by_contra hne
          have hmlt : m < i.val := by omega
          have hm64 : m < 64 := lt_trans hmlt i.isLt
          have hka : (st.BClist ⟨m, hm64⟩).alloc = false := by
            rcases ha : (st.BClist ⟨m, hm64⟩).alloc with _ | _
            · rfl
            · have := (hiff ⟨m, hm64⟩).mp ha
              simp only at this
              omega
          refine hmin ⟨m, hm64⟩ hmlt ?_
          rw [hG.sent ⟨m, hm64⟩ hka, ← hsentinel]
          exact hsec_i
        refine ⟨?_, ⟨m + 1, by have := i.isLt; omega, ?_, ?_⟩, ?_⟩ <;> dsimp only
        · intro k hk
          rcases eq_or_ne k i with rfl | hne
          · rw [Function.update_same] at hk; cases hk
          · rw [Function.update_noteq hne] at hk ⊢
            exact hG.sent k hk
        · intro k
          rcases eq_or_ne k i with rfl | hne
          · rw [Function.update_same]
            simp only [true_iff]
            omega
          · rw [Function.update_noteq hne]
            rw [hiff k]
            have : k.val ≠ i.val := fun he => hne (Fin.ext he)
            omega
        · omega
        · intro k l hkl hk hl
          rcases eq_or_ne k i with rfl | hnk
          · rw [Function.update_same] at hk ⊢
            rcases eq_or_ne l k with rfl | hnl
            · exact absurd rfl hkl
            · rw [Function.update_noteq hnl] at hl ⊢
              have hlm : l.val < m := (hiff l).mp hl
              exact fun he => hmin l (by omega) he.symm
          · rw [Function.update_noteq hnk] at hk ⊢
            rcases eq_or_ne l i with rfl | hnl
            · rw [Function.update_same] at hl ⊢
              have hkm : k.val < m := (hiff k).mp hk
              exact hmin k (by omega)
            · rw [Function.update_noteq hnl] at hl ⊢
              exact hG.dist k l hkl hk hl

/-- The residency invariant holds after any operation sequence. -/
theorem runOps_G (ops : List CacheOp) : ∀ st : CacheState, GInv st →
    GInv (runOps st ops) := by
  induction ops with
  | nil => intro st h; exact h
  | cons op rest ih =>
    intro st h
    show GInv (runOps (runOp st op) rest)
    exact ih _ (runOp_G st op h)

/-- C2: after cache initialisation and after every single-threaded
sequence of `_disk_read`/`_disk_write` operations, at most 64 sectors
are resident (there are only 64 slots), and among slots whose
`alloc` flag is set the sector identifiers are pairwise distinct. -/
theorem C2_residency_distinct (bufs : Fin 64 → Nat → Nat)
    (disk0 : Nat → Nat → Nat) (ops : List CacheOp) :
    ((Finset.univ.filter fun i : Fin 64 =>
        ((runOps (inode_init bufs disk0) ops).BClist i).alloc = true).card ≤ 64) ∧
    ∀ i j : Fin 64, i ≠ j →
      ((runOps (inode_init bufs disk0) ops).BClist i).alloc = true →
      ((runOps (inode_init bufs disk0) ops).BClist j).alloc = true →
      ((runOps (inode_init bufs disk0) ops).BClist i).sector ≠
        ((runOps (inode_init bufs disk0) ops).BClist j).sector := by
  constructor
  · calc (Finset.univ.filter fun i : Fin 64 =>
          ((runOps (inode_init bufs disk0) ops).BClist i).alloc = true).card
        ≤ (Finset.univ : Finset (Fin 64)).card := Finset.card_filter_le _ _
      _ = 64 := by simp
  · exact (runOps_G ops (inode_init bufs disk0) (GInv_init bufs disk0)).dist

/-- Witness for C2: after writes to sectors 3 and 5, slots 0 and 1 are
both allocated and hold distinct sectors. -/
theorem C2_residency_distinct_witness :
    ((runOps (inode_init (fun _ _ => 0) (fun _ _ => 0))
        [CacheOp.wr 3 0 1 fun _ => 7, CacheOp.wr 5 0 1 fun _ => 9]).BClist
        ⟨0, by omega⟩).sector ≠
      ((runOps (inode_init (fun _ _ => 0) (fun _ _ => 0))
        [CacheOp.wr 3 0 1 fun _ => 7, CacheOp.wr 5 0 1 fun _ => 9]).BClist
        ⟨1, by omega⟩).sector :=
  (C2_residency_distinct (fun _ _ => 0) (fun _ _ => 0)
      [CacheOp.wr 3 0 1 fun _ => 7, CacheOp.wr 5 0 1 fun _ => 9]).2
    ⟨0, by omega⟩ ⟨1, by omega⟩ (by decide) (by decide) (by decide)

/-! ### Inode layer -/

/-- `INODE_MAGIC` = `0x494e4f44`. -/
def INODE_MAGIC : Nat := 1229868868

/-- On-disk inode (`struct inode_disk`): first data sector, byte length
(signed `off_t`), magic.  The 125-word padding carries no information
and is omitted from the record (its bytes appear in the descriptor
encoding `inode_disk_bytes`). -/
structure inode_disk where
  start : Nat
  length : Int
  magic : Nat

/-- In-memory inode (`struct inode`).  The intrusive `list_elem` is
represented by membership in the open-inodes list. -/
structure inode where
  sector : Nat
  open_cnt : Int
  removed : Bool
  deny_write_cnt : Int
  data : inode_disk

/-- `DIV_ROUND_UP (size, DISK_SECTOR_SIZE)` with C signed arithmetic:
`(size + 512 - 1) / 512`, truncating division, then used as `size_t`. -/
def bytes_to_sectors (size : Int) : Nat :=
  ((size + 512 - 1).tdiv 512).toNat

/-- `byte_to_sector`: `start + pos / DISK_SECTOR_SIZE` when
`pos < length`, else `(disk_sector_t) -1`. -/
def byte_to_sector (ind : inode) (pos : Int) : Nat :=
  if pos < ind.data.length then ind.data.start + (pos.tdiv 512).toNat
  else SENTINEL

/-- `inode_length`. -/
def inode_length (ind : inode) : Int :=
  ind.data.length

/-- The open-inodes registry scan of `inode_open`: first in-memory
inode whose sector matches. -/
def lookupInode (lst : List inode) (sector : Nat) : Option inode :=
  lst.find? fun e => e.sector == sector

/-- `inode_reopen` on the registry entry for `sector`: increment that
inode's open count (the C function takes the aliased pointer; the
functional model addresses the unique registry entry by its key). -/
def inode_reopen : List inode → Nat → List inode
  | [], _ => []
  | e :: rest, s =>
    if e.sector = s then { e with open_cnt := e.open_cnt + 1 } :: rest
    else e :: inode_reopen rest s

/-- `inode_open`: return the already-open inode (via `inode_reopen`)
when registered; otherwise, if `malloc` succeeds, push a fresh inode
with open count 1 onto the front of the registry, its descriptor read
through the block cache (modelled by the collaborator `readDesc`).
The returned handle is the descriptor sector (the registry key that
identifies the aliased in-memory inode); `none` when allocation fails. -/
def inode_open (readDesc : Nat → inode_disk) (mallocOk : Bool)
    (lst : List inode) (sector : Nat) : List inode × Option Nat :=
  match lookupInode lst sector with
  | some _ => (inode_reopen lst sector, some sector)
  | none =>
    if mallocOk then
      ({ sector := sector, open_cnt := 1, removed := false,
         deny_write_cnt := 0, data := readDesc sector } :: lst, some sector)
    else (lst, none)

/-- `inode_get_inumber`. -/
def inode_get_inumber (ind : inode) : Nat :=
  ind.sector

/-- `inode_close` on the registry entry for `sector`: decrement its
open count; when it reaches zero remove it from the registry and, if
`removed` is set, emit the `free_map_release` calls — descriptor sector
with count 1, then the data sectors — in order. -/
def inode_close : List inode → Nat → List inode × List (Nat × Nat)
  | [], _ => ([], [])
  | e :: rest, s =>
    if e.sector = s then
      if e.open_cnt - 1 = 0 then
        (rest,
         if e.removed then
           [(e.sector, 1), (e.data.start, bytes_to_sectors e.data.length)]
         else [])
      else ({ e with open_cnt := e.open_cnt - 1 } :: rest, [])
    else
      let r := inode_close rest s
      (e :: r.1, r.2)

/-- `inode_remove` on the registry entry for `sector`. -/
def inode_remove : List inode → Nat → List inode
  | [], _ => []
  | e :: rest, s =>
    if e.sector = s then { e with removed := true } :: rest
    else e :: inode_remove rest s

/-- The chunk length computed by each iteration of `inode_read_at` /
`inode_write_at`: minimum of the remaining request size, the bytes left
in the current sector, and the bytes left in the file (all C `if`
minimum idioms). -/
def chunkSize (ind : inode) (size offset : Int) : Int :=
  let sector_ofs := offset.tmod 512
  let inode_left := inode_length ind - offset
  let sector_left := 512 - sector_ofs
  let min_left := if inode_left < sector_left then inode_left else sector_left
  if size < min_left then size else min_left

/-- The `while (size > 0)` loop of `inode_read_at`, with fuel
(each continuing iteration consumes at least one byte of `size`).
Returns `bytes_read` and the cache state after the chunk reads; the
bytes themselves go to the caller's buffer (content correctness is the
block-cache theorems' domain). -/
def inode_read_at_loop (ind : inode) :
    Nat → CacheState → Int → Int → Int → Int × CacheState
  | 0, st, _, _, bytes_read => (bytes_read, st)
  | fuel + 1, st, size, offset, bytes_read =>
    if size > 0 then
      if chunkSize ind size offset ≤ 0 then (bytes_read, st)
      else
        let st' := (_disk_read st (byte_to_sector ind offset)
          (offset.tmod 512).toNat (chunkSize ind size offset).toNat).2
        inode_read_at_loop ind fuel st' (size - chunkSize ind size offset)
          (offset + chunkSize ind size offset)
          (bytes_read + chunkSize ind size offset)
    else (bytes_read, st)

/-- `inode_read_at (inode, buffer, size, offset)`. -/
def inode_read_at (st : CacheState) (ind : inode) (size offset : Int) :
    Int × CacheState :=
  inode_read_at_loop ind size.toNat st size offset 0

/-- The `while (size > 0)` loop of `inode_write_at`. -/
def inode_write_at_loop (ind : inode) (buf : Nat → Nat) :
    Nat → CacheState → Int → Int → Int → Int × CacheState
  | 0, st, _, _, bytes_written => (bytes_written, st)
  | fuel + 1, st, size, offset, bytes_written =>
    if size > 0 then
      if chunkSize ind size offset ≤ 0 then (bytes_written, st)
      else
        let st' := _disk_write st (byte_to_sector ind offset)
          (fun j => buf (bytes_written.toNat + j))
          (offset.tmod 512).toNat (chunkSize ind size offset).toNat
        inode_write_at_loop ind buf fuel st' (size - chunkSize ind size offset)
          (offset + chunkSize ind size offset)
          (bytes_written + chunkSize ind size offset)
    else (bytes_written, st)

/-- `inode_write_at (inode, buffer, size, offset)`: returns 0 at once
when the deny-write count is nonzero. -/
def inode_write_at (st : CacheState) (ind : inode) (buf : Nat → Nat)
    (size offset : Int) : Int × CacheState :=
  if ind.deny_write_cnt ≠ 0 then (0, st)
  else inode_write_at_loop ind buf size.toNat st size offset 0

/-- Arithmetic facts about the chunk length. -/
theorem chunkSize_facts (ind : inode) (size offset : Int) (hoff : 0 ≤ offset) :
    chunkSize ind size offset ≤ size ∧
    chunkSize ind size offset ≤ inode_length ind - offset ∧
    (0 < size → (chunkSize ind size offset ≤ 0 ↔ inode_length ind - offset ≤ 0)) := by
  have hmod : offset.tmod 512 = offset % 512 := Int.tmod_eq_emod hoff (by omega)
  unfold chunkSize
  dsimp only
  rw [hmod]
  have h1 : 0 ≤ offset % 512 := by omega
  have h2 : offset % 512 < 512 := by omega
  split_ifs <;> omega

theorem inode_read_at_loop_count (ind : inode) :
    ∀ (fuel : Nat) (st : CacheState) (size offset acc : Int),
      0 ≤ size → 0 ≤ offset → size.toNat ≤ fuel →
      (inode_read_at_loop ind fuel st size offset acc).1 =
        acc + min size (max 0 (inode_length ind - offset)) := by
  intro fuel
  induction fuel with
  | zero =>
    intro st size offset acc hs hoff hf
    have hz : size = 0 := by omega
    subst hz
    show acc = acc + min 0 (max 0 (inode_length ind - offset))
    omega
  | succ n ih =>
    intro st size offset acc hs hoff hf
    simp only [inode_read_at_loop]
    by_cases hpos : size > 0
    · rw [if_pos hpos]
      obtain ⟨hc1, hc2, hc3⟩ := chunkSize_facts ind size offset hoff
      by_cases hcz : chunkSize ind size offset ≤ 0
      · rw [if_pos hcz]
        have hle : inode_length ind - offset ≤ 0 := (hc3 hpos).mp hcz
        show acc = acc + min size (max 0 (inode_length ind - offset))
        omega
      · rw [if_neg hcz]
        push_neg at hcz
        rw [ih _ _ _ _ (by omega) (by omega) (by omega)]
        omega
    · rw [if_neg hpos]
      have hz : size = 0 := by omega
      subst hz
      show acc = acc + min 0 (max 0 (inode_length ind - offset))
      omega

theorem inode_write_at_loop_count (ind : inode) (buf : Nat → Nat) :
    ∀ (fuel : Nat) (st : CacheState) (size offset acc : Int),
      0 ≤ size → 0 ≤ offset → size.toNat ≤ fuel →
      (inode_write_at_loop ind buf fuel st size offset acc).1 =
        acc + min size (max 0 (inode_length ind - offset)) := by
  intro fuel
  induction fuel with
  | zero =>
    intro st size offset acc hs hoff hf
    have hz : size = 0 := by omega
    subst hz
    show acc = acc + min 0 (max 0 (inode_length ind - offset))
    omega
  | succ n ih =>
    intro st size offset acc hs hoff hf
    simp only [inode_write_at_loop]
    by_cases hpos : size > 0
    · rw [if_pos hpos]
      obtain ⟨hc1, hc2, hc3⟩ := chunkSize_facts ind size offset hoff
      by_cases hcz : chunkSize ind size offset ≤ 0
      · rw [if_pos hcz]
        have hle : inode_length ind - offset ≤ 0 := (hc3 hpos).mp hcz
        show acc = acc + min size (max 0 (inode_length ind - offset))
        omega
      · rw [if_neg hcz]
        push_neg at hcz
        rw [ih _ _ _ _ (by omega) (by omega) (by omega)]
        omega
    · rw [if_neg hpos]
      have hz : size = 0 := by omega
      subst hz
      show acc = acc + min 0 (max 0 (inode_length ind - offset))
      omega

/-- C6: `inode_read_at` — and, with deny-write count zero,
`inode_write_at` — transfers exactly
`min (size, max (0, length - offset))` bytes and returns that count,
each chunk being the minimum of remaining request, remaining bytes in
the sector, and remaining bytes in the file (`chunkSize`); in
particular a length-0 inode reads 0 bytes at every offset and size. -/
theorem C6_transfer_count (st : CacheState) (ind : inode) (buf : Nat → Nat)
    (size offset : Int) (hs : 0 ≤ size) (hoff : 0 ≤ offset) :
    (inode_read_at st ind size offset).1 =
      min size (max 0 (inode_length ind - offset)) ∧
    (ind.deny_write_cnt = 0 →
      (inode_write_at st ind buf size offset).1 =
        min size (max 0 (inode_length ind - offset))) ∧
    (inode_length ind = 0 → (inode_read_at st ind size offset).1 = 0) := by
  have hr : (inode_read_at st ind size offset).1 =
      min size (max 0 (inode_length ind - offset)) := by
    show (inode_read_at_loop ind size.toNat st size offset 0).1 = _
    rw [inode_read_at_loop_count ind size.toNat st size offset 0 hs hoff
      (Nat.le_refl _)]
    omega
  refine ⟨hr, ?_, ?_⟩
  · intro hdeny
    show (if ind.deny_write_cnt ≠ 0 then ((0 : Int), st)
          else inode_write_at_loop ind buf size.toNat st size offset 0).1 = _
    rw [if_neg (by omega)]
    rw [inode_write_at_loop_count ind buf size.toNat st size offset 0 hs hoff
      (Nat.le_refl _)]
    omega
  · intro hlz
    rw [hr, hlz]
    omega

/-- Witness for C6: a length-0 inode at descriptor sector 10 reads 0
bytes at offset 5. -/
theorem C6_transfer_count_witness :
    (inode_read_at (inode_init (fun _ _ => 0) (fun _ _ => 0))
        ⟨10, 1, false, 0, ⟨100, 0, INODE_MAGIC⟩⟩ 3 5).1 = 0 :=
  (C6_transfer_count (inode_init (fun _ _ => 0) (fun _ _ => 0))
      ⟨10, 1, false, 0, ⟨100, 0, INODE_MAGIC⟩⟩ (fun _ => 0) 3 5
      (by omega) (by omega)).2.2 rfl

/-- C7: with deny-write count positive, `inode_write_at` returns 0 at
once and returns the cache state (and hence the raw disk inside it)
unchanged: no sector is read or written. -/
theorem C7_deny_write (st : CacheState) (ind : inode) (buf : Nat → Nat)
    (size offset : Int) (h : 0 < ind.deny_write_cnt) :
    inode_write_at st ind buf size offset = (0, st) := by
  show (if ind.deny_write_cnt ≠ 0 then ((0 : Int), st)
        else inode_write_at_loop ind buf size.toNat st size offset 0) = (0, st)
  rw [if_pos (by omega)]

/-- Witness for C7 at a concrete denied inode. -/
theorem C7_deny_write_witness :
    inode_write_at (inode_init (fun _ _ => 0) (fun _ _ => 0))
        ⟨10, 1, false, 1, ⟨100, 512, INODE_MAGIC⟩⟩ (fun _ => 7) 8 0 =
      (0, inode_init (fun _ _ => 0) (fun _ _ => 0)) :=
  C7_deny_write (inode_init (fun _ _ => 0) (fun _ _ => 0))
    ⟨10, 1, false, 1, ⟨100, 512, INODE_MAGIC⟩⟩ (fun _ => 7) 8 0 (by decide)

theorem lookupInode_sector (lst : List inode) (S : Nat) (ind : inode)
    (h : lookupInode lst S = some ind) : ind.sector = S := by
  have := List.find?_some h
  simpa using this

theorem inode_reopen_lookup : ∀ (lst : List inode) (S : Nat) (ind : inode),
    lookupInode lst S = some ind →
    lookupInode (inode_reopen lst S) S =
      some { ind with open_cnt := ind.open_cnt + 1 } ∧
    (inode_reopen lst S).length = lst.length := by
  intro lst
  induction lst with
  | nil => intro S ind h; simp [lookupInode] at h
  | cons e rest ih =>
    intro S ind h
    by_cases he : e.sector = S
    · have hfind : lookupInode (e :: rest) S = some e := by
        simp [lookupInode, List.find?_cons_of_pos, he]
      rw [hfind] at h
      injection h with h
      subst h
      constructor
      · simp only [inode_reopen, if_pos he]
        simp [lookupInode, List.find?_cons_of_pos, he]
      · simp [inode_reopen, he]
    · have hlk : lookupInode (e :: rest) S = lookupInode rest S := by
        simp [lookupInode, List.find?_cons_of_neg, he]
      rw [hlk] at h
      obtain ⟨h1, h2⟩ := ih S ind h
      constructor
      · simp only [inode_reopen, if_neg he]
        have : lookupInode (e :: inode_reopen rest S) S =
            lookupInode (inode_reopen rest S) S := by
          simp [lookupInode, List.find?_cons_of_neg, he]
        rw [this]
        exact h1
      · simp [inode_reopen, he, h2]

theorem inode_close_dec : ∀ (lst : List inode) (S : Nat) (ind : inode),
    lookupInode lst S = some ind → ind.open_cnt ≠ 1 →
    (inode_close lst S).2 = [] ∧
    lookupInode (inode_close lst S).1 S =
      some { ind with open_cnt := ind.open_cnt - 1 } ∧
    (inode_close lst S).1.length = lst.length := by
  intro lst
  induction lst with
  | nil => intro S ind h; simp [lookupInode] at h
  | cons e rest ih =>
    intro S ind h hcnt
    by_cases he : e.sector = S
    · have hfind : lookupInode (e :: rest) S = some e := by
        simp [lookupInode, List.find?_cons_of_pos, he]
      rw [hfind] at h
      injection h with h
      subst h
      simp only [inode_close, if_pos he,
        if_neg (show ¬(e.open_cnt - 1 = 0) by omega)]
      refine ⟨by simp, ?_, by simp⟩
      simp [lookupInode, List.find?_cons_of_pos, he]
    · have hlk : lookupInode (e :: rest) S = lookupInode rest S := by
        simp [lookupInode, List.find?_cons_of_neg, he]
      rw [hlk] at h
      obtain ⟨h1, h2, h3⟩ := ih S ind h hcnt
      simp only [inode_close, if_neg he]
      refine ⟨h1, ?_, by simpa using h3⟩
      have : lookupInode (e :: (inode_close rest S).1) S =
          lookupInode ((inode_close rest S).1) S := by
        simp [lookupInode, List.find?_cons_of_neg, he]
      rw [this]
      exact h2

theorem inode_close_last : ∀ (lst : List inode) (S : Nat) (ind : inode),
    lookupInode lst S = some ind → ind.open_cnt = 1 →
    (inode_close lst S).2 =
      (if ind.removed then
        [(S, 1), (ind.data.start, bytes_to_sectors ind.data.length)]
       else []) ∧
    (inode_close lst S).1.length + 1 = lst.length ∧
    (List.Pairwise (fun a b => a.sector ≠ b.sector) lst →
      lookupInode (inode_close lst S).1 S = none) := by
  intro lst
  induction lst with
  | nil => intro S ind h; simp [lookupInode] at h
  | cons e rest ih =>
    intro S ind h hcnt
    by_cases he : e.sector = S
    · have hfind : lookupInode (e :: rest) S = some e := by
        simp [lookupInode, List.find?_cons_of_pos, he]
      rw [hfind] at h
      injection h with h
      subst h
      simp only [inode_close, if_pos he,
        if_pos (show e.open_cnt - 1 = 0 by omega)]
      refine ⟨by rw [he], by simp, ?_⟩
      intro hpw
      show lookupInode rest S = none
      rw [lookupInode, List.find?_eq_none]
      intro x hx
      have hne := (List.pairwise_cons.mp hpw).1 x hx
      rw [he] at hne
      simp only [beq_iff_eq]
      exact fun hxs => hne hxs.symm
    · have hlk : lookupInode (e :: rest) S = lookupInode rest S := by
        simp [lookupInode, List.find?_cons_of_neg, he]
      rw [hlk] at h
      obtain ⟨h1, h2, h3⟩ := ih S ind h hcnt
      simp only [inode_close, if_neg he]
      refine ⟨h1, ?_, ?_⟩
      · simp only [List.length_cons]
        omega
      · intro hpw
        have hpw2 := (List.pairwise_cons.mp hpw).2
        have hskip : lookupInode (e :: (inode_close rest S).1) S =
            lookupInode ((inode_close rest S).1) S := by
          simp [lookupInode, List.find?_cons_of_neg, he]
        rw [hskip]
        exact h3 hpw2

theorem bytes_to_sectors_ceil (len : Int) (h : 0 ≤ len) :
    bytes_to_sectors len = (len.toNat + 511) / 512 := by
  unfold bytes_to_sectors
  rw [show len + 512 - 1 = len + 511 by omega,
    Int.tdiv_eq_ediv (by omega) (by omega)]
  omega

/-- C3: `inode_open` on an already-open descriptor sector aliases the
registered inode (same handle, same reported inumber) and raises its
open count by exactly one without growing the registry; a fresh open
registers an inode with open count 1; `inode_reopen` adds one and
`inode_close` subtracts one; the last close of a `removed` inode takes
it out of the registry and emits `free_map_release` of the descriptor
sector (count 1) followed by the `ceil(length/512)` data sectors,
before the in-memory inode is freed. -/
theorem C3_open_close_refcount (rd : Nat → inode_disk) (lst : List inode)
    (S : Nat) (ind : inode) :
    (lookupInode lst S = some ind →
      inode_open rd true lst S = (inode_reopen lst S, some S) ∧
      inode_get_inumber ind = S ∧
      lookupInode (inode_reopen lst S) S =
        some { ind with open_cnt := ind.open_cnt + 1 } ∧
      (inode_reopen lst S).length = lst.length) ∧
    (lookupInode lst S = none →
      inode_open rd true lst S =
        ({ sector := S, open_cnt := 1, removed := false, deny_write_cnt := 0,
           data := rd S } :: lst, some S)) ∧
    (lookupInode lst S = some ind → ind.open_cnt ≠ 1 →
      (inode_close lst S).2 = [] ∧
      lookupInode (inode_close lst S).1 S =
        some { ind with open_cnt := ind.open_cnt - 1 } ∧
      (inode_close lst S).1.length = lst.length) ∧
    (lookupInode lst S = some ind → ind.open_cnt = 1 →
      (inode_close lst S).2 =
        (if ind.removed then
          [(S, 1), (ind.data.start, bytes_to_sectors ind.data.length)]
         else []) ∧
      (inode_close lst S).1.length + 1 = lst.length ∧
      (List.Pairwise (fun a b => a.sector ≠ b.sector) lst →
        lookupInode (inode_close lst S).1 S = none)) ∧
    (0 ≤ ind.data.length →
      bytes_to_sectors ind.data.length = (ind.data.length.toNat + 511) / 512) := by
  refine ⟨?_, ?_, ?_, ?_, ?_⟩
  · intro h
    obtain ⟨h1, h2⟩ := inode_reopen_lookup lst S ind h
    exact ⟨by simp only [inode_open, h], lookupInode_sector lst S ind h, h1, h2⟩
  · intro h
    simp [inode_open, h]
  · intro h hcnt
    exact inode_close_dec lst S ind h hcnt
  · intro h hcnt
    exact inode_close_last lst S ind h hcnt
  · intro h
    exact bytes_to_sectors_ceil ind.data.length h

/-- Witness for C3: last close of a removed inode of length 600 at
descriptor sector 5 with data start 100 releases `(5,1)` then
`(100, ceil(600/512))` and empties the registry. -/
theorem C3_open_close_refcount_witness :
    (inode_close [⟨5, 1, true, 0, ⟨100, 600, INODE_MAGIC⟩⟩] 5).2 =
      (if (⟨5, 1, true, 0, ⟨100, 600, INODE_MAGIC⟩⟩ : inode).removed then
        [(5, 1), (100, bytes_to_sectors 600)]
       else []) ∧
    (inode_close [⟨5, 1, true, 0, ⟨100, 600, INODE_MAGIC⟩⟩] 5).1.length + 1 = 1 ∧
    bytes_to_sectors 600 = 2 :=
  ⟨((C3_open_close_refcount (fun _ => ⟨0, 0, 0⟩)
      [⟨5, 1, true, 0, ⟨100, 600, INODE_MAGIC⟩⟩] 5
      ⟨5, 1, true, 0, ⟨100, 600, INODE_MAGIC⟩⟩).2.2.2.1 rfl rfl).1,
   ((C3_open_close_refcount (fun _ => ⟨0, 0, 0⟩)
      [⟨5, 1, true, 0, ⟨100, 600, INODE_MAGIC⟩⟩] 5
      ⟨5, 1, true, 0, ⟨100, 600, INODE_MAGIC⟩⟩).2.2.2.1 rfl rfl).2.1,
   by decide⟩

/-! ### inode_create (C9) -/

/-- Little-endian byte image of the one-sector descriptor written by
`inode_create`: `start` (bytes 0–3), `length` (bytes 4–7, two's
complement of the nonnegative `off_t`), `magic` (bytes 8–11), zero
padding to the sector size (`calloc` zero-fills the 125 unused words). -/
def inode_disk_bytes (start : Nat) (length : Int) : Nat → Nat :=
  fun j =>
    if j < 4 then (start >>> (8 * j)) % 256
    else if j < 8 then (length.toNat >>> (8 * (j - 4))) % 256
    else if j < 12 then (INODE_MAGIC >>> (8 * (j - 8))) % 256
    else 0

/-- The static `zeros[DISK_SECTOR_SIZE]` buffer. -/
def zeros : Nat → Nat := fun _ => 0

/-- `inode_create (sector, length)`: on `calloc` success compute the
sector count, ask the free-map for a contiguous run, write the
descriptor to `sector` through the block cache, then zero-fill each
data sector through the block cache.  Besides the success flag and the
cache state, the model returns the ordered trace of `_disk_write`
calls (sector and source bytes), which is empty on failure. -/
def inode_create (st : CacheState) (free_map_allocate : Nat → Option Nat)
    (mallocOk : Bool) (sector : Nat) (length : Int) :
    Bool × CacheState × List (Nat × (Nat → Nat)) :=
  if mallocOk then
    match free_map_allocate (bytes_to_sectors length) with
    | some start =>
      let st1 := _disk_write st sector (inode_disk_bytes start length) 0 512
      let st2 := (List.range (bytes_to_sectors length)).foldl
        (fun s i => _disk_write s (start + i) zeros 0 512) st1
      (true, st2,
       (sector, inode_disk_bytes start length) ::
         (List.range (bytes_to_sectors length)).map (fun i => (start + i, zeros)))
    | none => (false, st, [])
  else (false, st, [])

/-- The descriptor bytes decode back to their fields (32-bit little
endian): the descriptor carries the magic constant and the given
length. -/
def decode32 (b : Nat → Nat) (o : Nat) : Nat :=
  b o + 256 * b (o + 1) + 65536 * b (o + 2) + 16777216 * b (o + 3)

theorem inode_disk_bytes_fields (s : Nat) (l : Int)
    (hs : s < 4294967296) (hl : 0 ≤ l) (hl2 : l < 4294967296) :
    decode32 (inode_disk_bytes s l) 0 = s ∧
    decode32 (inode_disk_bytes s l) 4 = l.toNat ∧
    decode32 (inode_disk_bytes s l) 8 = INODE_MAGIC := by
  have hln : l.toNat < 4294967296 := by omega
  refine ⟨?_, ?_, ?_⟩ <;>
    · norm_num [decode32, inode_disk_bytes, INODE_MAGIC,
        Nat.shiftRight_eq_div_pow]
      try omega

/-- C9 (amended: the descriptor is written first, then the data
sectors are zero-filled — the code performs the two steps in that
order, not the claimed one): `inode_create` computes
`ceil(length/512)` data sectors, asks the allocator for a contiguous
run, writes the one-sector descriptor (carrying magic and length) to
the descriptor sector through the block cache and then zero-fills each
data sector through the block cache; it returns true exactly when both
the memory allocation and the sector allocation succeed, and on
failure nothing at all is written. -/
theorem C9_inode_create (st : CacheState) (fm : Nat → Option Nat)
    (mallocOk : Bool) (sector : Nat) (length : Int) :
    ((inode_create st fm mallocOk sector length).1 = true ↔
      mallocOk = true ∧ (fm (bytes_to_sectors length)).isSome) ∧
    (∀ start, mallocOk = true → fm (bytes_to_sectors length) = some start →
      (inode_create st fm mallocOk sector length).2.2 =
        (sector, inode_disk_bytes start length) ::
          (List.range (bytes_to_sectors length)).map (fun i => (start + i, zeros))) ∧
    ((inode_create st fm mallocOk sector length).1 = false →
      (inode_create st fm mallocOk sector length).2.2 = [] ∧
      (inode_create st fm mallocOk sector length).2.1 = st) ∧
    (0 ≤ length → bytes_to_sectors length = (length.toNat + 511) / 512) := by
  refine ⟨?_, ?_, ?_, fun h => bytes_to_sectors_ceil length h⟩
  · rcases hm : mallocOk with _ | _
    · simp [inode_create, hm]
    · rcases hf : fm (bytes_to_sectors length) with _ | start
      · simp [inode_create, hf]
      · simp [inode_create, hf]
  · intro start hm hf
    subst hm
    simp [inode_create, hf]
  · intro hfail
    rcases hm : mallocOk with _ | _
    · simp [inode_create, hm]
    · rcases hf : fm (bytes_to_sectors length) with _ | start
      · simp [inode_create, hf]
      · rw [hm] at hfail
        simp [inode_create, hf] at hfail

/-- Witness for C9: creating a 512-byte inode at descriptor sector 7
with data run starting at 100 yields the descriptor write followed by
one zero-fill. -/
theorem C9_inode_create_witness :
    (inode_create (inode_init (fun _ _ => 0) (fun _ _ => 0))
        (fun _ => some 100) true 7 512).2.2 =
      (7, inode_disk_bytes 100 512) ::
        (List.range (bytes_to_sectors 512)).map (fun i => (100 + i, zeros)) :=
  (C9_inode_create (inode_init (fun _ _ => 0) (fun _ _ => 0))
      (fun _ => some 100) true 7 512).2.1 100 rfl rfl

/-- Counterexample to C9 as stated: it claims the data sectors are
zero-filled first and the descriptor written afterwards, but the call
trace at a concrete input shows the descriptor write to sector 7
strictly before the zero-fill of data sector 100. -/
theorem C9_inode_create_counterexample :
    (inode_create (inode_init (fun _ _ => 0) (fun _ _ => 0))
        (fun _ => some 100) true 7 512).2.2 =
      [(7, inode_disk_bytes 100 512), (100, zeros)] ∧ (7 : Nat) ≠ 100 := by
  constructor
  · show (7, inode_disk_bytes 100 512) ::
        (List.range (bytes_to_sectors 512)).map (fun i => (100 + i, zeros)) = _
    norm_num [bytes_to_sectors,
      show ((1023 : Int).tdiv 512).toNat = 1 from rfl, List.range_succ]
  · decide

/-! ### Frame table (src/vm/frame.c) -/

/-- `struct frame_entry`: one claimed physical page plus the list of
page-table-entry addresses mapped to it (`pte_list`).  Physical pages
and pte addresses are modelled as `Nat` identities. -/
structure frame_entry where
  kpage : Nat
  pte_list : List Nat

/-- The frame table's mutable state: `kpage_hash` (the index from
physical page to frame record, modelled as an association list with
first-match lookup) and the `frame_table` list (insertion-ordered
kpages; `frame_free_page` never removes from it, faithfully to the
source). -/
structure FrameState where
  kpage_hash : List frame_entry
  frame_table : List Nat

/-- `frame_init`. -/
def frame_init : FrameState := ⟨[], []⟩

/-- `hash_find` on the kpage hash: first entry with the given page. -/
def hashFind (frames : List frame_entry) (kpage : Nat) : Option frame_entry :=
  frames.find? fun f => f.kpage == kpage

/-- `list_push_back (&f_e->pte_list, &p_e->elem)` on the first entry
with the given page. -/
def appendPte : List frame_entry → Nat → Nat → List frame_entry
  | [], _, _ => []
  | f :: rest, k, p =>
    if f.kpage = k then { f with pte_list := f.pte_list ++ [p] } :: rest
    else f :: appendPte rest k p

/-- Remove the first entry with the given page (`hash_delete`). -/
def removeEntry : List frame_entry → Nat → List frame_entry
  | [], _ => []
  | f :: rest, k => if f.kpage = k then rest else f :: removeEntry rest k

/-- Remove the first occurrence of `p` from the first entry with the
given page (the `for` loop with `break` in `frame_free_page`). -/
def erasePteFirst : List frame_entry → Nat → Nat → List frame_entry
  | [], _, _ => []
  | f :: rest, k, p =>
    if f.kpage = k then { f with pte_list := f.pte_list.erase p } :: rest
    else f :: erasePteFirst rest k p

/-- `frame_get_page (flags, upage, writable)`.  The external
collaborators are abstracted by their results: `palloc` is what
`palloc_get_page` returned, `installOk` whether `install_page`
succeeded, and `pte` the entry address `lookup_page` resolved.  Returns
the kpage result, the new state, and the list of pages handed back to
`palloc_free_page` during the call. -/
def frame_get_page (palloc : Option Nat) (installOk : Bool) (pte : Nat)
    (st : FrameState) : Option Nat × FrameState × List Nat :=
  match palloc with
  | none => (none, st, [])
  | some kpage =>
    if installOk then
      match hashFind st.kpage_hash kpage with
      | none =>
        (some kpage,
         { kpage_hash := appendPte (⟨kpage, []⟩ :: st.kpage_hash) kpage pte
           frame_table := st.frame_table ++ [kpage] }, [])
      | some _ =>
        (some kpage,
         { st with kpage_hash := appendPte st.kpage_hash kpage pte }, [])
    else (none, st, [kpage])

/-- `frame_free_page (pte)`; `page` is what `pte_get_page (*pte)`
resolved.  Returns the new state and the pages handed back to
`palloc_free_page`. -/
def frame_free_page (page pte : Nat) (st : FrameState) :
    FrameState × List Nat :=
  match hashFind st.kpage_hash page with
  | none => (st, [])
  | some f =>
    if (f.pte_list.erase pte).isEmpty then
      ({ kpage_hash := removeEntry st.kpage_hash page
         frame_table := st.frame_table }, [page])
    else
      ({ st with kpage_hash := erasePteFirst st.kpage_hash page pte }, [])

/-- Frame-table operations with their external-collaborator outcomes. -/
inductive FrameOp where
  | get : Option Nat → Bool → Nat → FrameOp
  | free : Nat → Nat → FrameOp

def runFrameOp (st : FrameState) : FrameOp → FrameState
  | FrameOp.get palloc inst pte => (frame_get_page palloc inst pte st).2.1
  | FrameOp.free page pte => (frame_free_page page pte st).1

def runFrameOps (st : FrameState) (ops : List FrameOp) : FrameState :=
  ops.foldl runFrameOp st

theorem appendPte_cons_self (k p : Nat) (L : List Nat)
    (rest : List frame_entry) :
    appendPte (⟨k, L⟩ :: rest) k p = ⟨k, L ++ [p]⟩ :: rest := by
  simp [appendPte]

theorem appendPte_nonempty : ∀ (lst : List frame_entry) (k p : Nat),
    (∀ f ∈ lst, f.pte_list ≠ []) →
    ∀ g ∈ appendPte lst k p, g.pte_list ≠ [] := by
  intro lst
  induction lst with
  | nil => intro k p _ g hg; simp [appendPte] at hg
  | cons f rest ih =>
    intro k p h g hg
    by_cases he : f.kpage = k
    · rw [appendPte, if_pos he] at hg
      rcases List.mem_cons.mp hg with rfl | hg
      · simp
      · exact h g (List.mem_cons_of_mem _ hg)
    · rw [appendPte, if_neg he] at hg
      rcases List.mem_cons.mp hg with rfl | hg
      · exact h g (List.mem_cons_self _ _)
      · exact ih k p (fun x hx => h x (List.mem_cons_of_mem _ hx)) g hg

theorem removeEntry_mem : ∀ (lst : List frame_entry) (k : Nat) (g : frame_entry),
    g ∈ removeEntry lst k → g ∈ lst := by
  intro lst
  induction lst with
  | nil => intro k g hg; simp [removeEntry] at hg
  | cons f rest ih =>
    intro k g hg
    by_cases he : f.kpage = k
    · rw [removeEntry, if_pos he] at hg
      exact List.mem_cons_of_mem _ hg
    · rw [removeEntry, if_neg he] at hg
      rcases List.mem_cons.mp hg with rfl | hg
      · exact List.mem_cons_self _ _
      · exact List.mem_cons_of_mem _ (ih k g hg)

theorem erasePteFirst_mem : ∀ (lst : List frame_entry) (k p : Nat)
    (g : frame_entry), g ∈ erasePteFirst lst k p →
    g ∈ lst ∨ ∃ f, hashFind lst k = some f ∧
      g = { f with pte_list := f.pte_list.erase p } := by
  intro lst
  induction lst with
  | nil => intro k p g hg; simp [erasePteFirst] at hg
  | cons f rest ih =>
    intro k p g hg
    by_cases he : f.kpage = k
    · rw [erasePteFirst, if_pos he] at hg
      rcases List.mem_cons.mp hg with rfl | hg
      · right
        exact ⟨f, by simp [hashFind, List.find?_cons_of_pos, he], rfl⟩
      · exact Or.inl (List.mem_cons_of_mem _ hg)
    · rw [erasePteFirst, if_neg he] at hg
      rcases List.mem_cons.mp hg with rfl | hg
      · exact Or.inl (List.mem_cons_self _ _)
      · rcases ih k p g hg with h1 | ⟨f', hf', he'⟩
        · exact Or.inl (List.mem_cons_of_mem _ h1)
        · right
          exact ⟨f', by simpa [hashFind, List.find?_cons_of_neg, he] using hf', he'⟩

theorem hashFind_erasePteFirst : ∀ (lst : List frame_entry) (k p : Nat)
    (f : frame_entry), hashFind lst k = some f →
    hashFind (erasePteFirst lst k p) k =
      some { f with pte_list := f.pte_list.erase p } := by
  intro lst
  induction lst with
  | nil => intro k p f h; simp [hashFind] at h
  | cons e rest ih =>
    intro k p f h
    by_cases he : e.kpage = k
    · have : hashFind (e :: rest) k = some e := by
        simp [hashFind, List.find?_cons_of_pos, he]
      rw [this] at h
      injection h with h
      subst h
      rw [erasePteFirst, if_pos he]
      simp [hashFind, List.find?_cons_of_pos, he]
    · have hskip : hashFind (e :: rest) k = hashFind rest k := by
        simp [hashFind, List.find?_cons_of_neg, he]
      rw [hskip] at h
      rw [erasePteFirst, if_neg he]
      have : hashFind (e :: erasePteFirst rest k p) k =
          hashFind (erasePteFirst rest k p) k := by
        simp [hashFind, List.find?_cons_of_neg, he]
      rw [this]
      exact ih k p f h

/-- Every frame-table operation preserves the invariant that every
frame record in the index has a non-empty reference list. -/
theorem runFrameOp_inv (st : FrameState) (op : FrameOp)
    (h : ∀ f ∈ st.kpage_hash, f.pte_list ≠ []) :
    ∀ f ∈ (runFrameOp st op).kpage_hash, f.pte_list ≠ [] := by
  cases op with
  | get palloc inst pte =>
    show ∀ f ∈ (frame_get_page palloc inst pte st).2.1.kpage_hash, _
    rcases palloc with _ | kpage
    · exact h
    · by_cases hinst : inst = true
      · subst hinst
        rcases hfind : hashFind st.kpage_hash kpage with _ | fe
        · simp only [frame_get_page, hfind, if_pos rfl]
          rw [appendPte_cons_self]
          intro g hg
          rcases List.mem_cons.mp hg with rfl | hg
          · simp
          · exact h g hg
        · simp only [frame_get_page, hfind, if_pos rfl]
          exact appendPte_nonempty st.kpage_hash kpage pte h
      · have : inst = false := by
          rcases inst with _ | _
          · rfl
          · exact absurd rfl hinst
        subst this
        simp [frame_get_page]
        exact h
  | free page pte =>
    show ∀ f ∈ (frame_free_page page pte st).1.kpage_hash, _
    rcases hfind : hashFind st.kpage_hash page with _ | fe
    · simp only [frame_free_page, hfind]
      exact h
    · by_cases hemp : (fe.pte_list.erase pte).isEmpty
      · simp only [frame_free_page, hfind, if_pos hemp]
        exact fun g hg => h g (removeEntry_mem st.kpage_hash page g hg)
      · simp only [frame_free_page, hfind, if_neg hemp]
        intro g hg
        rcases erasePteFirst_mem st.kpage_hash page pte g hg with h1 | ⟨f', hf', he'⟩
        · exact h g h1
        · rw [hfind] at hf'
          injection hf' with hf'
          subst hf'
          subst he'
          simp only [List.isEmpty_iff] at hemp
          exact hemp

theorem runFrameOps_inv (ops : List FrameOp) : ∀ st : FrameState,
    (∀ f ∈ st.kpage_hash, f.pte_list ≠ []) →
    ∀ f ∈ (runFrameOps st ops).kpage_hash, f.pte_list ≠ [] := by
  induction ops with
  | nil => intro st h; exact h
  | cons op rest ih =>
    intro st h
    show ∀ f ∈ (runFrameOps (runFrameOp st op) rest).kpage_hash, _
    exact ih _ (runFrameOp_inv st op h)

/-- C5: between frame-table operations every frame record in the index
has a non-empty reference list (a frame exists in the index iff its
reference set is non-empty); `frame_free_page` removes the given
page-table entry from its frame's reference list, removes the frame
from the index and returns the physical page to the allocator exactly
when that removal empties the list, and otherwise leaves the frame
resident with the shortened list and frees nothing. -/
theorem C5_frame_refcount (ops : List FrameOp) (st : FrameState)
    (page pte : Nat) (f : frame_entry) :
    (∀ g ∈ (runFrameOps frame_init ops).kpage_hash, g.pte_list ≠ []) ∧
    (hashFind st.kpage_hash page = some f →
      (f.pte_list.erase pte = [] →
        frame_free_page page pte st =
          ({ kpage_hash := removeEntry st.kpage_hash page
             frame_table := st.frame_table }, [page])) ∧
      (f.pte_list.erase pte ≠ [] →
        frame_free_page page pte st =
          ({ st with kpage_hash := erasePteFirst st.kpage_hash page pte }, []) ∧
        hashFind (erasePteFirst st.kpage_hash page pte) page =
          some { f with pte_list := f.pte_list.erase pte })) ∧
    (hashFind st.kpage_hash page = none →
      frame_free_page page pte st = (st, [])) := by
  refine ⟨?_, ?_, ?_⟩
  · exact runFrameOps_inv ops frame_init (by intro f hf; simp [frame_init] at hf)
  · intro hfind
    constructor
    · intro hemp
      simp only [frame_free_page, hfind,
        if_pos (show (f.pte_list.erase pte).isEmpty = true by
          rw [List.isEmpty_iff]; exact hemp)]
    · intro hne
      constructor
      · simp only [frame_free_page, hfind,
          if_neg (show ¬ (f.pte_list.erase pte).isEmpty = true by
            rw [List.isEmpty_iff]; exact hne)]
      · exact hashFind_erasePteFirst st.kpage_hash page pte f hfind
  · intro hfind
    simp only [frame_free_page, hfind]

/-- Witness for C5: freeing pte 1 of a frame for page 40 referenced by
ptes 1 and 2 leaves the frame resident with reference list `[2]` and
frees nothing. -/
theorem C5_frame_refcount_witness :
    frame_free_page 40 1 ⟨[⟨40, [1, 2]⟩], [40]⟩ =
      ({ (⟨[⟨40, [1, 2]⟩], [40]⟩ : FrameState) with
           kpage_hash := erasePteFirst [⟨40, [1, 2]⟩] 40 1 }, []) ∧
    hashFind (erasePteFirst [⟨40, [1, 2]⟩] 40 1) 40 =
      some { (⟨40, [1, 2]⟩ : frame_entry) with pte_list := [1, 2].erase 1 } :=
  ((C5_frame_refcount [] ⟨[⟨40, [1, 2]⟩], [40]⟩ 40 1 ⟨40, [1, 2]⟩).2.1
    rfl).2 (by decide)

/-- C8: `frame_get_page` returns null when the physical-page allocator
fails, and when the allocator succeeds but page-table installation
fails it hands the page back to the allocator before failing; in both
cases the frame index and the frame table are unchanged and no page is
leaked. -/
theorem C8_frame_get_page_failures (st : FrameState) (installOk : Bool)
    (pte kpage : Nat) :
    frame_get_page none installOk pte st = (none, st, []) ∧
    frame_get_page (some kpage) false pte st = (none, st, [kpage]) :=
  ⟨rfl, rfl⟩
